import Mathlib

/-!
# libqes: growable string buffers (`qes_str.h`), size rounding (`kmutil.h`) and the
sequence record built from the buffers

A shallow embedding of the C code. The sequence record (`qes_seq.h`, `qes_seq.c`) is not
among the sources; its definitions are modelled from the specification and say so.

* `size_t` / `uint64_t` values are natural numbers below `2 ^ 64`, `uint32_t` values are
  natural numbers below `2 ^ 32`; every operation that can wrap is reduced explicitly.
* A `char *` is `Option (List Nat)`: `none` is `NULL`, `some b` is a pointer to the start of
  an allocated object holding the bytes `b` (so `b.length` is the size of the object).
* A `struct qes_str *` is `Option qes_str`: `none` is `NULL`.
* A function that writes through its pointer argument returns the new state of the pointee
  next to its C return value.
* Reading or writing outside an object, or through `NULL`, is undefined behaviour in C and is
  the error `Err.fault` here; a loop that has not finished when the fuel is spent is
  `Err.fuel`.
* Allocation succeeds; the bytes `realloc` leaves indeterminate are read off a function `junk`.
* The objects passed to one call do not overlap: the source of a fill is not the storage of
  the buffer being filled, and the two buffers of a copy are different buffers.
* Results about a buffer assume `st.m ≤ st.alloc`: its capacity field does not exceed the size
  of the object its storage points to (so the storage is not `NULL` when the capacity is
  positive). `qes_str_init`, `qes_str_create` and `qes_str_fill_charptr` establish it.
-/

namespace Qes

/-! ## kmutil.h -/

/-- The number of values of a 64-bit `size_t` / `uint64_t`. -/
def SIZE_MOD : Nat := 2 ^ 64

/-- The number of values of a `uint32_t`. -/
def U32_MOD : Nat := 2 ^ 32

/-- `kmroundupz` of kmutil.h on a 64-bit system (`UINTPTR_MAX == 0xffffffffffffffff`). -/
def kmroundupz (sz : Nat) : Nat :=
  let sz := if sz &&& ((sz + SIZE_MOD - 1) % SIZE_MOD) ≠ 0 then (sz + SIZE_MOD - 1) % SIZE_MOD else sz
  let sz := sz ||| (sz >>> 1)
  let sz := sz ||| (sz >>> 2)
  let sz := sz ||| (sz >>> 4)
  let sz := sz ||| (sz >>> 8)
  let sz := sz ||| (sz >>> 16)
  let sz := sz ||| (sz >>> 32)
  (sz + 1) % SIZE_MOD

/-- `kmroundup32` of kmutil.h. -/
def kmroundup32 (u32 : Nat) : Nat :=
  let u32 := if u32 &&& ((u32 + U32_MOD - 1) % U32_MOD) ≠ 0 then (u32 + U32_MOD - 1) % U32_MOD else u32
  let u32 := u32 ||| (u32 >>> 1)
  let u32 := u32 ||| (u32 >>> 2)
  let u32 := u32 ||| (u32 >>> 4)
  let u32 := u32 ||| (u32 >>> 8)
  let u32 := u32 ||| (u32 >>> 16)
  (u32 + 1) % U32_MOD

/-- `kmroundup64` of kmutil.h. -/
def kmroundup64 (u64 : Nat) : Nat :=
  let u64 := if u64 &&& ((u64 + SIZE_MOD - 1) % SIZE_MOD) ≠ 0 then (u64 + SIZE_MOD - 1) % SIZE_MOD else u64
  let u64 := u64 ||| (u64 >>> 1)
  let u64 := u64 ||| (u64 >>> 2)
  let u64 := u64 ||| (u64 >>> 4)
  let u64 := u64 ||| (u64 >>> 8)
  let u64 := u64 ||| (u64 >>> 16)
  let u64 := u64 ||| (u64 >>> 32)
  (u64 + 1) % SIZE_MOD

/-- The five masking steps shared by all three rounding functions. -/
def smear32 (x : Nat) : Nat :=
  let x := x ||| (x >>> 1)
  let x := x ||| (x >>> 2)
  let x := x ||| (x >>> 4)
  let x := x ||| (x >>> 8)
  x ||| (x >>> 16)

/-- The six masking steps of the 64-bit rounding functions. -/
def smear64 (x : Nat) : Nat :=
  let x := smear32 x
  x ||| (x >>> 32)

/-! ## qes_str.h -/

/-- Modelled from the spec: `qes_roundupz` is declared in qes_util.h, which is absent; it is
the rounding function of the growth policy, `kmroundupz` of kmutil.h. -/
def qes_roundupz (sz : Nat) : Nat := kmroundupz sz

/-- The ways a run can fail to produce a result. -/
inductive Err where
  /-- Undefined behaviour: an access through `NULL` or outside an allocated object. -/
  | fault : Err
  /-- The loop was still running when the fuel was spent. -/
  | fuel : Err
deriving DecidableEq, Repr

deriving instance DecidableEq for Except

/-- The `struct qes_str` of qes_str.h: storage `s`, length `l`, capacity `m`. -/
structure qes_str where
  s : Option (List Nat)
  l : Nat
  m : Nat
deriving DecidableEq, Repr

/-- The size of the object `str->s` points to (0 for `NULL`). -/
def qes_str.alloc (st : qes_str) : Nat :=
  match st.s with
  | none => 0
  | some b => b.length

/-- Modelled from the spec: `qes_calloc` is declared in qes_util.h, which is absent. The
allocation succeeds and yields `n * size` zero bytes ("zero-initialized"). -/
def qes_calloc (n size : Nat) : Option (List Nat) :=
  some (List.replicate (n * size) 0)

/-- Modelled from the spec: `qes_realloc` is declared in qes_util.h, which is absent. The
allocation succeeds and yields an object of `size` bytes that keeps the old contents up to
the smaller of the two sizes; the bytes beyond them are indeterminate and are read off
`junk`. `realloc(NULL, size)` allocates a new object. -/
def qes_realloc (junk : Nat → Nat) (p : Option (List Nat)) (size : Nat) : Option (List Nat) :=
  let old := p.getD []
  some (old.take size ++ (List.range (size - old.length)).map junk)

/-- The `strlen` of the C library: the number of bytes before the first zero byte; running off the end of
the object is a fault. -/
def strlen : List Nat → Except Err Nat
  | [] => .error .fault
  | c :: cs => if c = 0 then .ok 0 else (strlen cs).map (· + 1)

/-- The `memcpy` of the C library: the first `n` bytes of `dest` are replaced by the first `n` bytes of `src`;
the new contents of the destination object are returned. -/
def memcpy (dest src : Option (List Nat)) (n : Nat) : Except Err (List Nat) :=
  match dest, src with
  | some d, some b =>
    if n ≤ d.length ∧ n ≤ b.length then .ok (b.take n ++ d.drop n) else .error .fault
  | _, _ => .error .fault

/-- The assignment `p[i] = c`; the new contents of the object are returned. -/
def store (p : Option (List Nat)) (i c : Nat) : Except Err (List Nat) :=
  match p with
  | some d => if i < d.length then .ok (d.set i c) else .error .fault
  | none => .error .fault

/-- `qes_str_ok` of qes_str.h. -/
def qes_str_ok (str : Option qes_str) : Bool :=
  match str with
  | none => false
  | some st => st.s.isSome && decide (st.m > 0)

/-- `qes_str_init` of qes_str.h; the result is the new state of `*str`. -/
def qes_str_init (str : Option qes_str) (capacity : Nat) : Option qes_str :=
  match str with
  | none => none
  | some _ => some { l := 0, s := qes_calloc capacity 1, m := capacity }

/-- `qes_str_create` of qes_str.h: the struct comes zeroed from `qes_calloc(1, sizeof(*str))`
and is handed to `qes_str_init`. -/
def qes_str_create (capacity : Nat) : Option qes_str :=
  qes_str_init (some { s := none, l := 0, m := 0 }) capacity

/-- The statement `if (len == 0) len = strlen(cp);` of `qes_str_fill_charptr`. -/
def fill_len (cp : List Nat) (len : Nat) : Except Err Nat :=
  if len = 0 then strlen cp else .ok len

/-- The loop `while (str->m < len + 1) str->m = qes_roundupz(str->m);` of
`qes_str_fill_charptr`, with `need = len + 1`; the result is the final `str->m`. -/
def grow : Nat → Nat → Nat → Except Err Nat
  | 0, _, _ => .error .fuel
  | fuel + 1, m, need => if m < need then grow fuel (qes_roundupz m) need else .ok m

/-- `qes_str_fill_charptr` of qes_str.h; the result is the return value and the new state of
`*str`. `sizeof(*str->s)` is 1. -/
def qes_str_fill_charptr (fuel : Nat) (junk : Nat → Nat) (str : Option qes_str)
    (cp : Option (List Nat)) (len : Nat) : Except Err (Int × Option qes_str) :=
  match str, cp with
  | none, _ => .ok (0, none)
  | some st, none => .ok (0, some st)
  | some st, some src => do
    let len ← fill_len src len
    let need := (len + 1) % SIZE_MOD
    let st ← if st.m < need then do
        let m ← grow fuel st.m need
        pure { st with m := m, s := qes_realloc junk st.s (m * 1 % SIZE_MOD) }
      else pure st
    let b ← memcpy st.s (some src) len
    let b ← store (some b) len 0
    pure (1, some { st with s := some b, l := len })

/-- `qes_str_nullify` of qes_str.h; the result is the return value and the new state of
`*str`. -/
def qes_str_nullify (str : Option qes_str) : Except Err (Int × Option qes_str) :=
  if !qes_str_ok str then .ok (1, str)
  else match str with
    | none => .error .fault
    | some st => do
      let b ← store st.s 0 0
      pure (0, some { st with s := some b, l := 0 })

/-- `qes_str_copy` of qes_str.h; the result is the return value and the new state of `*dest`.
`src` is `const` and never written, and is a different object from `dest`. -/
def qes_str_copy (dest src : Option qes_str) : Except Err (Int × Option qes_str) :=
  if !qes_str_ok src || dest.isNone then .ok (1, dest)
  else match src with
    | none => .error .fault
    | some sr =>
      let dest := if !qes_str_ok dest then qes_str_init dest sr.m else dest
      match dest with
      | none => .error .fault
      | some d => do
        let b ← memcpy d.s sr.s sr.m
        pure (0, some { d with s := some b })

/-! ## qes_seq.h / qes_seq.c

The header and the source of the sequence record are absent; the record and its operations
are modelled from the specification, on top of the buffer operations of qes_str.h above. -/

/-- Modelled from the spec: the `struct qes_seq` of the absent qes_seq.h, a record composed of
four buffers: name, comment, sequence and quality. The fields are embedded structs, as the
tests take their addresses (`&seq->name`). -/
structure qes_seq where
  name : qes_str
  comment : qes_str
  seq : qes_str
  qual : qes_str
deriving DecidableEq, Repr

/-- The absent buffer: storage unallocated, capacity 0, length 0. -/
def qes_str.absent : qes_str := { s := none, l := 0, m := 0 }

/-- A field of a record, handed to `qes_str_init` by its address. -/
def field_init (capacity : Nat) : qes_str :=
  (qes_str_init (some qes_str.absent) capacity).getD qes_str.absent

/-- Modelled from the spec: `qes_str_destroy_cp` is only declared in qes_str.h; it releases
the owned storage and resets the buffer to the absent state. -/
def qes_str_destroy_cp (str : Option qes_str) : Option qes_str :=
  match str with
  | none => none
  | some _ => some qes_str.absent

/-- Modelled from the spec: `qes_seq_create` of the absent qes_seq.c, the "full" variant, all
four buffers valid. The initial capacity, which the spec only requires to be positive, is the
parameter `cap`. -/
def qes_seq_create (cap : Nat) : Option qes_seq :=
  some { name := field_init cap, comment := field_init cap, seq := field_init cap,
         qual := field_init cap }

/-- Modelled from the spec: `qes_seq_create_no_qual` of the absent qes_seq.c, the
"no-quality" variant: quality is left absent. -/
def qes_seq_create_no_qual (cap : Nat) : Option qes_seq :=
  some { name := field_init cap, comment := field_init cap, seq := field_init cap,
         qual := qes_str.absent }

/-- Modelled from the spec: `qes_seq_create_no_qual_or_comment` of the absent qes_seq.c, the
"no-comment-or-quality" variant: comment and quality are left absent. -/
def qes_seq_create_no_qual_or_comment (cap : Nat) : Option qes_seq :=
  some { name := field_init cap, comment := qes_str.absent, seq := field_init cap,
         qual := qes_str.absent }

/-- Modelled from the spec: `qes_seq_ok` of the absent qes_seq.h: name, comment, sequence and
quality all valid; false for a null record. -/
def qes_seq_ok (seq : Option qes_seq) : Bool :=
  match seq with
  | none => false
  | some r => qes_str_ok (some r.name) && qes_str_ok (some r.comment) &&
      qes_str_ok (some r.seq) && qes_str_ok (some r.qual)

/-- Modelled from the spec: `qes_seq_ok_no_comment` of the absent qes_seq.h: name, sequence
and quality valid, the comment ignored; false for a null record. -/
def qes_seq_ok_no_comment (seq : Option qes_seq) : Bool :=
  match seq with
  | none => false
  | some r => qes_str_ok (some r.name) && qes_str_ok (some r.seq) && qes_str_ok (some r.qual)

/-- Modelled from the spec: `qes_seq_ok_no_qual` of the absent qes_seq.h: name, comment and
sequence valid, the quality ignored; false for a null record. -/
def qes_seq_ok_no_qual (seq : Option qes_seq) : Bool :=
  match seq with
  | none => false
  | some r => qes_str_ok (some r.name) && qes_str_ok (some r.comment) &&
      qes_str_ok (some r.seq)

/-- Modelled from the spec: `qes_seq_ok_no_comment_or_qual` of the absent qes_seq.h: name and
sequence valid, comment and quality ignored; false for a null record. -/
def qes_seq_ok_no_comment_or_qual (seq : Option qes_seq) : Bool :=
  match seq with
  | none => false
  | some r => qes_str_ok (some r.name) && qes_str_ok (some r.seq)

/-- The outcome of a field filler that delegates to `qes_str_fill_charptr` on the field
`old`: the OK indicator 0 when the buffer fill reports success (1), the error 1 otherwise,
and the new state of the field. -/
def delegate (old : qes_str) (res : Int × Option qes_str) : Int × qes_str :=
  (if res.1 = 1 then 0 else 1, res.2.getD old)

/-- Modelled from the spec: `qes_seq_fill_name` of the absent qes_seq.c: fails with 1, leaving
the record as it is, for a null record, a null text or a length of 0; otherwise delegates to
the buffer fill on the name. -/
def qes_seq_fill_name (fuel : Nat) (junk : Nat → Nat) (seq : Option qes_seq)
    (text : Option (List Nat)) (len : Nat) : Except Err (Int × Option qes_seq) :=
  match seq, text with
  | some r, some t =>
    if len = 0 then .ok (1, seq)
    else do
      let res ← qes_str_fill_charptr fuel junk (some r.name) (some t) len
      pure ((delegate r.name res).1, some { r with name := (delegate r.name res).2 })
  | _, _ => .ok (1, seq)

/-- Modelled from the spec: `qes_seq_fill_comment` of the absent qes_seq.c, as
`qes_seq_fill_name` but on the comment. -/
def qes_seq_fill_comment (fuel : Nat) (junk : Nat → Nat) (seq : Option qes_seq)
    (text : Option (List Nat)) (len : Nat) : Except Err (Int × Option qes_seq) :=
  match seq, text with
  | some r, some t =>
    if len = 0 then .ok (1, seq)
    else do
      let res ← qes_str_fill_charptr fuel junk (some r.comment) (some t) len
      pure ((delegate r.comment res).1, some { r with comment := (delegate r.comment res).2 })
  | _, _ => .ok (1, seq)

/-- Modelled from the spec: `qes_seq_fill_seq` of the absent qes_seq.c, as
`qes_seq_fill_name` but on the sequence. -/
def qes_seq_fill_seq (fuel : Nat) (junk : Nat → Nat) (seq : Option qes_seq)
    (text : Option (List Nat)) (len : Nat) : Except Err (Int × Option qes_seq) :=
  match seq, text with
  | some r, some t =>
    if len = 0 then .ok (1, seq)
    else do
      let res ← qes_str_fill_charptr fuel junk (some r.seq) (some t) len
      pure ((delegate r.seq res).1, some { r with seq := (delegate r.seq res).2 })
  | _, _ => .ok (1, seq)

/-- Modelled from the spec: `qes_seq_fill_qual` of the absent qes_seq.c, as
`qes_seq_fill_name` but on the quality. -/
def qes_seq_fill_qual (fuel : Nat) (junk : Nat → Nat) (seq : Option qes_seq)
    (text : Option (List Nat)) (len : Nat) : Except Err (Int × Option qes_seq) :=
  match seq, text with
  | some r, some t =>
    if len = 0 then .ok (1, seq)
    else do
      let res ← qes_str_fill_charptr fuel junk (some r.qual) (some t) len
      pure ((delegate r.qual res).1, some { r with qual := (delegate r.qual res).2 })
  | _, _ => .ok (1, seq)

/-- Step 2 of the header tokenizer: a length of 0 stands for the length of the
null-terminated line. -/
def header_len (line : List Nat) (len : Nat) : Except Err Nat :=
  if len = 0 then strlen line else .ok len

/-- Step 3 of the header tokenizer: strip exactly one leading marker, `>` (62) or `@` (64),
if present. -/
def strip_marker : List Nat → List Nat
  | [] => []
  | c :: cs => if c = 62 ∨ c = 64 then cs else c :: cs

/-- Drop one trailing byte `c` if present. -/
def strip_last (c : Nat) (l : List Nat) : List Nat :=
  if l.getLast? = some c then l.dropLast else l

/-- The line ending proper, as step 4 of the header tokenizer words it: one trailing `\n`
(10) is dropped if present, then one trailing `\r` (13) if present. -/
def strip_crlf (l : List Nat) : List Nat :=
  strip_last 13 (strip_last 10 l)

/-- Drop the trailing spaces (32). -/
def strip_spaces (l : List Nat) : List Nat :=
  l.rdropWhile (fun c => c == 32)

/-- Modelled from the spec: step 4 of the header tokenizer of the absent qes_seq.c, the
line-ending normalisation. The line ending is dropped as the step words it (`strip_crlf`),
and the spaces that precede it go with it: the parsing table of the spec gives the comment
`"COMM"` (4) for `"@HWI_TEST COMM \r\n"`, and the test of the repository asserts it
(test_seq.c:389). -/
def strip_eol (l : List Nat) : List Nat :=
  strip_spaces (strip_crlf l)

/-- Step 5 of the header tokenizer, the name: everything before the first space (32), or the
entire content when there is no space. -/
def header_name (content : List Nat) : List Nat :=
  content.takeWhile (fun c => c ≠ 32)

/-- Step 5 of the header tokenizer, the comment: everything strictly after the first space
(32), or empty when there is no space. -/
def header_comment (content : List Nat) : List Nat :=
  (content.dropWhile (fun c => c ≠ 32)).drop 1

/-- Modelled from the spec: `qes_seq_fill_header` of the absent qes_seq.c, by the six steps of
the header tokenizer. It rejects a null record or a null line with 1; it takes the first
`len` bytes of the line (`strlen` of it when `len` is 0), strips one leading marker and the
trailing line ending with the spaces before it, splits at the first space, and fills name
and comment through the
buffer fill, each from its token as a null-terminated text of its own (so that a token of
length 0 is the empty text); it returns 0. A line shorter than `len` is read out of bounds. -/
def qes_seq_fill_header (fuel : Nat) (junk : Nat → Nat) (seq : Option qes_seq)
    (header : Option (List Nat)) (len : Nat) : Except Err (Int × Option qes_seq) :=
  match seq, header with
  | some r, some line => do
    let len ← header_len line len
    if line.length < len then .error .fault
    else
      let content := strip_eol (strip_marker (line.take len))
      let nm := header_name content
      let cm := header_comment content
      let rn ← qes_str_fill_charptr fuel junk (some r.name) (some (nm ++ [0])) nm.length
      let rc ← qes_str_fill_charptr fuel junk (some r.comment) (some (cm ++ [0])) cm.length
      pure (0, some { r with name := rn.2.getD r.name, comment := rc.2.getD r.comment })
  | _, _ => .ok (1, seq)

/-- Modelled from the spec: `qes_seq_copy` of the absent qes_seq.c. It fails with 1, leaving
`dest` as it is, when either record is null or when `src` and `dest` are the same record;
otherwise it deep-copies the four fields with the buffer copy `qes_str_copy` and returns 0
when the four copies succeed, 1 otherwise. `same` is the outcome of the pointer comparison
`dest == src`, which the states of the pointees cannot express. -/
def qes_seq_copy (same : Bool) (dest src : Option qes_seq) :
    Except Err (Int × Option qes_seq) :=
  match dest, src with
  | some d, some sr =>
    if same then .ok (1, dest)
    else do
      let rn ← qes_str_copy (some d.name) (some sr.name)
      let rc ← qes_str_copy (some d.comment) (some sr.comment)
      let rs ← qes_str_copy (some d.seq) (some sr.seq)
      let rq ← qes_str_copy (some d.qual) (some sr.qual)
      pure (if rn.1 = 0 ∧ rc.1 = 0 ∧ rs.1 = 0 ∧ rq.1 = 0 then 0 else 1,
            some { name := rn.2.getD d.name, comment := rc.2.getD d.comment,
                   seq := rs.2.getD d.seq, qual := rq.2.getD d.qual })
  | _, _ => .ok (1, dest)

/-- The bytes of a text, for writing inputs down. -/
def bytes (t : String) : List Nat := t.toList.map Char.toNat

/-! ## Auxiliary definitions used to state the results -/

/-- The bytes left in an object `d` by `memcpy(d, src, e); d[e] = 0`. -/
def filled (d src : List Nat) (e : Nat) : List Nat := (src.take e ++ d.drop e).set e 0

/-- The well-formedness of a buffer as a text: the storage is allocated, `l < m`, and
`s[l] = 0`. -/
def qes_str.well_formed (st : qes_str) : Bool :=
  match st.s with
  | none => false
  | some b => decide (st.l < st.m) && (b[st.l]? == some 0)

/-! ### Bit-level lemmas for the rounding functions -/

/-- One "or with a shifted copy" step doubles the window of bits gathered at each position. -/
theorem smear_step (x y n : Nat)
    (h : ∀ i, y.testBit i = true ↔ ∃ j, j < n ∧ x.testBit (i + j) = true) :
    ∀ i, (y ||| (y >>> n)).testBit i = true ↔ ∃ j, j < 2 * n ∧ x.testBit (i + j) = true := by
  intro i
  rw [Nat.testBit_lor, Bool.or_eq_true, Nat.testBit_shiftRight, h, h]
  constructor
  · rintro (⟨j, hj, hb⟩ | ⟨j, hj, hb⟩)
    · exact ⟨j, by omega, hb⟩
    · refine ⟨n + j, by omega, ?_⟩
      have e : i + (n + j) = n + i + j := by omega
      rw [e]; exact hb
  · rintro ⟨j, hj, hb⟩
    by_cases hjn : j < n
    · exact Or.inl ⟨j, hjn, hb⟩
    · refine Or.inr ⟨j - n, by omega, ?_⟩
      have e : n + i + (j - n) = i + j := by omega
      rw [e]; exact hb

theorem smear32_testBit (x i : Nat) :
    (smear32 x).testBit i = true ↔ ∃ j, j < 32 ∧ x.testBit (i + j) = true := by
  have h0 : ∀ i, x.testBit i = true ↔ ∃ j, j < 1 ∧ x.testBit (i + j) = true := by
    intro i
    constructor
    · intro h; exact ⟨0, by omega, by simpa using h⟩
    · rintro ⟨j, hj, hb⟩
      have : j = 0 := by omega
      subst this; simpa using hb
  have h1 := smear_step x _ 1 h0
  have h2 := smear_step x _ 2 h1
  have h3 := smear_step x _ 4 h2
  have h4 := smear_step x _ 8 h3
  have h5 := smear_step x _ 16 h4
  exact h5 i

theorem smear64_testBit (x i : Nat) :
    (smear64 x).testBit i = true ↔ ∃ j, j < 64 ∧ x.testBit (i + j) = true :=
  smear_step x _ 32 (smear32_testBit x) i

/-- The top bit of a number in `[2 ^ k, 2 ^ (k + 1))` is bit `k`. -/
theorem testBit_top (x k : Nat) (h1 : 2 ^ k ≤ x) (h2 : x < 2 ^ (k + 1)) :
    x.testBit k = true := by
  rw [Nat.testBit_to_div_mod]
  have hd : x / 2 ^ k = 1 := by
    apply Nat.div_eq_of_lt_le
    · simpa using h1
    · rw [pow_succ] at h2; omega
  simp [hd]

/-- Gathering a window of `w > k` bits turns a number in `[2 ^ k, 2 ^ (k + 1))` into
`2 ^ (k + 1) - 1`. -/
theorem smear_window (x y w k : Nat) (hk : k < w) (h1 : 2 ^ k ≤ x) (h2 : x < 2 ^ (k + 1))
    (h : ∀ i, y.testBit i = true ↔ ∃ j, j < w ∧ x.testBit (i + j) = true) :
    y = 2 ^ (k + 1) - 1 := by
  apply Nat.eq_of_testBit_eq
  intro i
  rw [Nat.testBit_two_pow_sub_one]
  by_cases hi : i < k + 1
  · rw [decide_eq_true hi, h]
    refine ⟨k - i, by omega, ?_⟩
    have e : i + (k - i) = k := by omega
    rw [e]; exact testBit_top x k h1 h2
  · rw [decide_eq_false hi]
    cases hb : y.testBit i with
    | false => rfl
    | true =>
      exfalso
      obtain ⟨j, _, hj⟩ := (h i).1 hb
      have hge := Nat.testBit_implies_ge hj
      have hlt : 2 ^ (k + 1) ≤ 2 ^ (i + j) := Nat.pow_le_pow_right (by decide) (by omega)
      omega

theorem smear64_eq (x k : Nat) (hk : k < 64) (h1 : 2 ^ k ≤ x) (h2 : x < 2 ^ (k + 1)) :
    smear64 x = 2 ^ (k + 1) - 1 :=
  smear_window x _ 64 k hk h1 h2 (smear64_testBit x)

theorem smear32_eq (x k : Nat) (hk : k < 32) (h1 : 2 ^ k ≤ x) (h2 : x < 2 ^ (k + 1)) :
    smear32 x = 2 ^ (k + 1) - 1 :=
  smear_window x _ 32 k hk h1 h2 (smear32_testBit x)

/-- A power of two shares no bit with its predecessor. -/
theorem two_pow_land_pred (k : Nat) : 2 ^ k &&& (2 ^ k - 1) = 0 := by
  apply Nat.eq_of_testBit_eq
  intro i
  rw [Nat.testBit_land, Nat.testBit_two_pow, Nat.testBit_two_pow_sub_one, Nat.zero_testBit]
  by_cases h : k = i
  · subst h; simp
  · simp [h]

theorem kmroundupz_unfold (sz : Nat) :
    kmroundupz sz =
      (smear64 (if sz &&& ((sz + SIZE_MOD - 1) % SIZE_MOD) ≠ 0
        then (sz + SIZE_MOD - 1) % SIZE_MOD else sz) + 1) % SIZE_MOD := rfl

theorem kmroundup64_unfold (sz : Nat) :
    kmroundup64 sz =
      (smear64 (if sz &&& ((sz + SIZE_MOD - 1) % SIZE_MOD) ≠ 0
        then (sz + SIZE_MOD - 1) % SIZE_MOD else sz) + 1) % SIZE_MOD := rfl

theorem kmroundup32_unfold (u : Nat) :
    kmroundup32 u =
      (smear32 (if u &&& ((u + U32_MOD - 1) % U32_MOD) ≠ 0
        then (u + U32_MOD - 1) % U32_MOD else u) + 1) % U32_MOD := rfl

/-- Whichever branch the decrement takes, the value that is masked stays in
`[2 ^ k, 2 ^ (k + 1))`. -/
theorem dec_range (M sz k : Nat) (hM : 2 ^ (k + 1) ≤ M) (h1 : 2 ^ k ≤ sz)
    (h2 : sz < 2 ^ (k + 1)) :
    2 ^ k ≤ (if sz &&& ((sz + M - 1) % M) ≠ 0 then (sz + M - 1) % M else sz) ∧
    (if sz &&& ((sz + M - 1) % M) ≠ 0 then (sz + M - 1) % M else sz) < 2 ^ (k + 1) := by
  have hpos : 0 < 2 ^ k := Nat.two_pow_pos k
  have hpred : (sz + M - 1) % M = sz - 1 := by
    have e : sz + M - 1 = (sz - 1) + M := by omega
    rw [e, Nat.add_mod_right, Nat.mod_eq_of_lt (by omega)]
  rw [hpred]
  split
  · rename_i hc
    have hne : sz ≠ 2 ^ k := by
      intro he
      apply hc
      rw [he]; exact two_pow_land_pred k
    omega
  · exact ⟨h1, h2⟩

/-- What `kmroundupz` computes on `[2 ^ k, 2 ^ (k + 1))`. -/
theorem kmroundupz_range (sz k : Nat) (hk : k < 64) (h1 : 2 ^ k ≤ sz) (h2 : sz < 2 ^ (k + 1)) :
    kmroundupz sz = 2 ^ (k + 1) % SIZE_MOD := by
  have hM : 2 ^ (k + 1) ≤ SIZE_MOD := by
    unfold SIZE_MOD; exact Nat.pow_le_pow_right (by decide) (by omega)
  obtain ⟨a, b⟩ := dec_range SIZE_MOD sz k hM h1 h2
  rw [kmroundupz_unfold, smear64_eq _ k hk a b]
  have hpos : 0 < 2 ^ (k + 1) := Nat.two_pow_pos (k + 1)
  have e : 2 ^ (k + 1) - 1 + 1 = 2 ^ (k + 1) := by omega
  rw [e]

theorem kmroundup64_eq_kmroundupz (sz : Nat) : kmroundup64 sz = kmroundupz sz := rfl

/-- What `kmroundup32` computes on `[2 ^ k, 2 ^ (k + 1))`. -/
theorem kmroundup32_range (u k : Nat) (hk : k < 32) (h1 : 2 ^ k ≤ u) (h2 : u < 2 ^ (k + 1)) :
    kmroundup32 u = 2 ^ (k + 1) % U32_MOD := by
  have hM : 2 ^ (k + 1) ≤ U32_MOD := by
    unfold U32_MOD; exact Nat.pow_le_pow_right (by decide) (by omega)
  obtain ⟨a, b⟩ := dec_range U32_MOD u k hM h1 h2
  rw [kmroundup32_unfold, smear32_eq _ k hk a b]
  have hpos : 0 < 2 ^ (k + 1) := Nat.two_pow_pos (k + 1)
  have e : 2 ^ (k + 1) - 1 + 1 = 2 ^ (k + 1) := by omega
  rw [e]

/-! ### The growth loop -/

theorem qes_roundupz_zero : qes_roundupz 0 = 1 := by decide

theorem qes_roundupz_range (sz k : Nat) (hk : k < 63) (h1 : 2 ^ k ≤ sz)
    (h2 : sz < 2 ^ (k + 1)) : qes_roundupz sz = 2 ^ (k + 1) := by
  unfold qes_roundupz
  rw [kmroundupz_range sz k (by omega) h1 h2]
  apply Nat.mod_eq_of_lt
  have : 2 ^ (k + 1) ≤ 2 ^ 63 := Nat.pow_le_pow_right (by decide) (by omega)
  unfold SIZE_MOD
  omega

/-- From a power of two the loop doubles until it reaches the first power of two that is
at least `need`. -/
theorem grow_pow (need K : Nat) (hK : K ≤ 63) (hle : need ≤ 2 ^ K) :
    ∀ n k fuel, k + n = K → (∀ j, k ≤ j → j < K → 2 ^ j < need) → n + 1 ≤ fuel →
      grow fuel (2 ^ k) need = .ok (2 ^ K) := by
  intro n
  induction n with
  | zero =>
    intro k fuel hk _ hf
    obtain ⟨f, rfl⟩ : ∃ f, fuel = f + 1 := ⟨fuel - 1, by omega⟩
    have : k = K := by omega
    subst this
    simp [grow, Nat.not_lt.2 hle]
  | succ n ih =>
    intro k fuel hk hmin hf
    obtain ⟨f, rfl⟩ : ∃ f, fuel = f + 1 := ⟨fuel - 1, by omega⟩
    have hlt : 2 ^ k < need := hmin k (le_refl k) (by omega)
    have hr : qes_roundupz (2 ^ k) = 2 ^ (k + 1) :=
      qes_roundupz_range (2 ^ k) k (by omega) (le_refl _)
        (Nat.pow_lt_pow_right (by decide) (by omega))
    simp only [grow, hlt, if_true, hr]
    exact ih (k + 1) f (by omega) (fun j hj hjK => hmin j (by omega) hjK) (by omega)

/-- The loop started below `need` ends on the smallest power of two that is at least
`need`, when that power is at most `2 ^ 63`. -/
theorem grow_spec (fuel m need K : Nat) (hf : 65 ≤ fuel) (hm : m < need) (hK : K ≤ 63)
    (hle : need ≤ 2 ^ K) (hmin : ∀ j, j < K → 2 ^ j < need) :
    grow fuel m need = .ok (2 ^ K) := by
  obtain ⟨f, rfl⟩ : ∃ f, fuel = f + 1 := ⟨fuel - 1, by omega⟩
  simp only [grow, hm, if_true]
  by_cases h0 : m = 0
  · subst h0
    rw [qes_roundupz_zero]
    exact grow_pow need K hK hle K 0 f (by omega) (fun j _ hj => hmin j hj) (by omega)
  · have hlo : 2 ^ Nat.log 2 m ≤ m := Nat.pow_log_le_self 2 h0
    have hhi : m < 2 ^ (Nat.log 2 m + 1) := Nat.lt_pow_succ_log_self (by decide) m
    have hkK : Nat.log 2 m < K := by
      by_contra hc
      have : 2 ^ K ≤ 2 ^ Nat.log 2 m := Nat.pow_le_pow_right (by decide) (by omega)
      omega
    rw [qes_roundupz_range m (Nat.log 2 m) (by omega) hlo hhi]
    exact grow_pow need K hK hle (K - (Nat.log 2 m + 1)) (Nat.log 2 m + 1) f (by omega)
      (fun j _ hj => hmin j hj) (by omega)

/-- The smallest power of two that is at least `need` exists and is at most `2 ^ 63` for
`need ≤ 2 ^ 63`. -/
theorem clog_facts (need : Nat) (h : need ≤ 2 ^ 63) :
    Nat.clog 2 need ≤ 63 ∧ need ≤ 2 ^ Nat.clog 2 need ∧
      ∀ j, j < Nat.clog 2 need → 2 ^ j < need :=
  ⟨(Nat.le_pow_iff_clog_le (by decide)).1 h, Nat.le_pow_clog (by decide) need,
    fun _ hj => (Nat.pow_lt_iff_lt_clog (by decide)).2 hj⟩

/-! ### The writes of `qes_str_fill_charptr` -/

theorem filled_length (d src : List Nat) (e : Nat) (h1 : e < d.length)
    (h2 : e ≤ src.length) : (filled d src e).length = d.length := by
  simp [filled]; omega

theorem filled_take (d src : List Nat) (e : Nat) (h2 : e ≤ src.length) :
    (filled d src e).take e = src.take e := by
  have hl : (src.take e).length = e := by simp [h2]
  unfold filled
  rw [List.set_append_right _ _ (by omega), List.take_append_of_le_length (by omega)]
  rw [List.take_of_length_le (by omega)]

theorem filled_get (d src : List Nat) (e : Nat) (h1 : e < d.length)
    (h2 : e ≤ src.length) : (filled d src e)[e]? = some 0 := by
  unfold filled
  have hl : e < (List.take e src ++ List.drop e d).length := by simp; omega
  rw [List.getElem?_set_self hl]

theorem write_spec (d src : List Nat) (e : Nat) (h1 : e < d.length) (h2 : e ≤ src.length) :
    (memcpy (some d) (some src) e >>= fun b => store (some b) e 0) = .ok (filled d src e) := by
  have hl : e < (src.take e ++ d.drop e).length := by simp; omega
  simp [memcpy, store, bind, Except.bind, filled, h2, Nat.le_of_lt h1]
  omega


/-- The exact result of a fill that does not need to grow the buffer. -/
theorem fill_keep (fuel : Nat) (junk : Nat → Nat) (st : qes_str) (d src : List Nat)
    (len e : Nat) (hs : st.s = some d) (hlen : fill_len src len = .ok e)
    (he : e + 1 ≤ 2 ^ 63) (hm : e + 1 ≤ st.m) (hd : st.m ≤ d.length) (hsrc : e ≤ src.length) :
    qes_str_fill_charptr fuel junk (some st) (some src) len =
      .ok (1, some { s := some (filled d src e), l := e, m := st.m }) := by
  have hneed : (e + 1) % SIZE_MOD = e + 1 := Nat.mod_eq_of_lt (by unfold SIZE_MOD; omega)
  have hw := write_spec d src e (by omega) hsrc
  simp only [bind, Except.bind] at hw
  simp only [qes_str_fill_charptr, hlen, bind, Except.bind, hneed, Nat.not_lt.2 hm, if_false,
    pure, Except.pure, hs]
  revert hw
  cases memcpy (some d) (some src) e with
  | error x => intro hw; cases hw
  | ok b =>
    intro hw
    replace hw : store (some b) e 0 = Except.ok _ := hw
    simp only [hw]

/-- The exact result of a fill that has to grow the buffer. -/
theorem fill_grow (fuel : Nat) (junk : Nat → Nat) (st : qes_str) (src : List Nat)
    (len e : Nat) (hf : 65 ≤ fuel) (hlen : fill_len src len = .ok e)
    (he : e + 1 ≤ 2 ^ 63) (hm : st.m < e + 1) (hsrc : e ≤ src.length) :
    ∃ d, qes_realloc junk st.s (2 ^ Nat.clog 2 (e + 1)) = some d ∧
      d.length = 2 ^ Nat.clog 2 (e + 1) ∧
      qes_str_fill_charptr fuel junk (some st) (some src) len =
        .ok (1, some { s := some (filled d src e), l := e, m := 2 ^ Nat.clog 2 (e + 1) }) := by
  have hneed : (e + 1) % SIZE_MOD = e + 1 := Nat.mod_eq_of_lt (by unfold SIZE_MOD; omega)
  obtain ⟨hK, hle, hmin⟩ := clog_facts (e + 1) he
  have hg := grow_spec fuel st.m (e + 1) _ hf hm hK hle hmin
  have hP : 2 ^ Nat.clog 2 (e + 1) ≤ 2 ^ 63 := Nat.pow_le_pow_right (by decide) hK
  have hmod : 2 ^ Nat.clog 2 (e + 1) * 1 % SIZE_MOD = 2 ^ Nat.clog 2 (e + 1) := by
    rw [Nat.mul_one]; exact Nat.mod_eq_of_lt (by unfold SIZE_MOD; omega)
  refine ⟨(st.s.getD []).take (2 ^ Nat.clog 2 (e + 1)) ++
    (List.range (2 ^ Nat.clog 2 (e + 1) - (st.s.getD []).length)).map junk, rfl, ?_, ?_⟩
  · simp; omega
  · have hdl : ((st.s.getD []).take (2 ^ Nat.clog 2 (e + 1)) ++
        (List.range (2 ^ Nat.clog 2 (e + 1) - (st.s.getD []).length)).map junk).length
          = 2 ^ Nat.clog 2 (e + 1) := by simp; omega
    have hw := write_spec _ src e (by rw [hdl]; omega) hsrc
    simp only [bind, Except.bind] at hw
    simp only [qes_str_fill_charptr, hlen, bind, Except.bind, hneed, hm, if_true, hg,
      pure, Except.pure, hmod, qes_realloc]
    revert hw
    cases memcpy (some ((st.s.getD []).take (2 ^ Nat.clog 2 (e + 1)) ++
        (List.range (2 ^ Nat.clog 2 (e + 1) - (st.s.getD []).length)).map junk)) (some src) e with
    | error x => intro hw; cases hw
    | ok b =>
      intro hw
      replace hw : store (some b) e 0 = Except.ok _ := hw
      simp only [hw]


theorem strlen_lt (src : List Nat) : ∀ n, strlen src = .ok n → n < src.length := by
  induction src with
  | nil => intro n h; cases h
  | cons c cs ih =>
    intro n h
    by_cases hc : c = 0
    · simp [strlen, hc] at h
      subst h; simp
    · simp only [strlen, hc, if_false] at h
      cases hs : strlen cs with
      | error x => rw [hs] at h; cases h
      | ok k =>
        rw [hs] at h
        have hk := ih k hs
        have : k + 1 = n := by
          simpa [Except.map] using h
        subst this
        simp; omega

theorem fill_len_pos (src : List Nat) (len : Nat) (h : 1 ≤ len) :
    fill_len src len = .ok len := by
  have : len ≠ 0 := by omega
  simp [fill_len, this]

/-- The storage of a buffer whose capacity is positive and does not overstate its
allocation is not `NULL`. -/
theorem storage_of_capacity (st : qes_str) (hwf : st.m ≤ st.alloc) (hm : 0 < st.m) :
    ∃ d, st.s = some d ∧ st.m ≤ d.length := by
  cases hs : st.s with
  | none => simp [qes_str.alloc, hs] at hwf; omega
  | some d => exact ⟨d, rfl, by simpa [qes_str.alloc, hs] using hwf⟩

/-- The result of every fill whose growth loop ends and whose accesses are in bounds. -/
theorem fill_spec (fuel : Nat) (junk : Nat → Nat) (st : qes_str) (src : List Nat)
    (len e : Nat) (hf : 65 ≤ fuel) (hwf : st.m ≤ st.alloc) (hlen : fill_len src len = .ok e)
    (he : e + 1 ≤ 2 ^ 63) (hsrc : e ≤ src.length) :
    ∃ b m, qes_str_fill_charptr fuel junk (some st) (some src) len =
        .ok (1, some { s := some b, l := e, m := m }) ∧
      b.take e = src.take e ∧ b[e]? = some 0 ∧ e + 1 ≤ m ∧ m ≤ b.length ∧
      (e + 1 ≤ st.m → m = st.m) ∧ (st.m < e + 1 → m = 2 ^ Nat.clog 2 (e + 1) ∧ b.length = m) := by
  by_cases hm : e + 1 ≤ st.m
  · obtain ⟨d, hs, hd⟩ := storage_of_capacity st hwf (by omega)
    refine ⟨filled d src e, st.m, fill_keep fuel junk st d src len e hs hlen he hm hd hsrc,
      filled_take d src e hsrc, filled_get d src e (by omega) hsrc, hm, ?_, fun _ => rfl, ?_⟩
    · rw [filled_length d src e (by omega) hsrc]; exact hd
    · intro h; omega
  · obtain ⟨d, _, hdl, hfill⟩ := fill_grow fuel junk st src len e hf hlen he (by omega) hsrc
    have hle := (clog_facts (e + 1) he).2.1
    have hfl := filled_length d src e (by omega) hsrc
    refine ⟨filled d src e, _, hfill, filled_take d src e hsrc,
      filled_get d src e (by omega) hsrc, hle, ?_, ?_, ?_⟩
    · omega
    · intro h; omega
    · intro _; exact ⟨rfl, by omega⟩

/-- A buffer fresh from `qes_str_init` has exactly the storage its capacity field says. -/
theorem init_alloc (st0 : qes_str) (c : Nat) :
    ∃ st, qes_str_init (some st0) c = some st ∧ st.alloc = st.m :=
  ⟨_, rfl, by simp [qes_str.alloc, qes_calloc]⟩

/-- A fill on non-null arguments that runs to completion returns 1. -/
theorem fill_ret (fuel : Nat) (junk : Nat → Nat) (st : qes_str) (src : List Nat) (len : Nat)
    (r : Int) (st' : Option qes_str)
    (h : qes_str_fill_charptr fuel junk (some st) (some src) len = .ok (r, st')) : r = 1 := by
  simp only [qes_str_fill_charptr, bind, Except.bind, pure, Except.pure] at h
  repeat' split at h
  all_goals first
    | (cases h; done)
    | (cases h; rfl)

/-! ## The claims -/

/-- C1: for every non-null buffer (valid or not) whose capacity field does not overstate its
allocation, every non-null source holding at least `len` bytes and every `len` with
`1 ≤ len` and `len + 1 ≤ 2 ^ 63`, `qes_str_fill_charptr` returns 1, and afterwards
`str.l = len`, the bytes `str.s[0..len)` equal `source[0..len)`, `str.s[len] = 0` and
`str.m ≥ len + 1` (the growth loop ends within 64 rounds, so any fuel from 65 on gives the
result). -/
theorem qes_str_fill_charptr_success (fuel : Nat) (junk : Nat → Nat) (st : qes_str)
    (src : List Nat) (len : Nat) (hf : 65 ≤ fuel) (hwf : st.m ≤ st.alloc) (h1 : 1 ≤ len)
    (h2 : len + 1 ≤ 2 ^ 63) (hsrc : len ≤ src.length) :
    ∃ b m, qes_str_fill_charptr fuel junk (some st) (some src) len =
        .ok (1, some { s := some b, l := len, m := m }) ∧
      b.take len = src.take len ∧ b[len]? = some 0 ∧ len + 1 ≤ m := by
  obtain ⟨b, m, h, ht, hg, hm, _⟩ :=
    fill_spec fuel junk st src len len hf hwf (fill_len_pos src len h1) h2 hsrc
  exact ⟨b, m, h, ht, hg, hm⟩

theorem qes_str_fill_charptr_success_witness :
    ∃ b m, qes_str_fill_charptr 65 (fun _ => 255) (some { s := none, l := 0, m := 0 })
        (some [65, 67, 71, 84, 0]) 4 = .ok (1, some { s := some b, l := 4, m := m }) ∧
      b.take 4 = [65, 67, 71, 84] ∧ b[4]? = some 0 ∧ 4 + 1 ≤ m :=
  qes_str_fill_charptr_success 65 (fun _ => 255) { s := none, l := 0, m := 0 }
    [65, 67, 71, 84, 0] 4 (by decide) (by decide) (by decide) (by decide) (by decide)

/-- C2: for every buffer with capacity `m` and every fill whose copied length `len` (the
variable `len` at the capacity test: the argument, or `strlen(cp)` when the argument is 0)
has `need = len + 1 ≤ 2 ^ 63`, `qes_str_fill_charptr` leaves the capacity equal to `m` when
`m ≥ need`, and otherwise sets it to the smallest power of two that is `≥ need`. -/
theorem qes_str_fill_charptr_capacity (fuel : Nat) (junk : Nat → Nat) (st : qes_str)
    (src : List Nat) (len e : Nat) (hf : 65 ≤ fuel) (hwf : st.m ≤ st.alloc)
    (hlen : fill_len src len = .ok e) (he : e + 1 ≤ 2 ^ 63) (hsrc : e ≤ src.length) :
    ∃ st', qes_str_fill_charptr fuel junk (some st) (some src) len = .ok (1, some st') ∧
      (e + 1 ≤ st.m → st'.m = st.m) ∧
      (st.m < e + 1 → ∃ k, st'.m = 2 ^ k ∧ e + 1 ≤ 2 ^ k ∧ ∀ j, e + 1 ≤ 2 ^ j → 2 ^ k ≤ 2 ^ j) := by
  obtain ⟨b, m, h, _, _, _, _, hk, hg⟩ := fill_spec fuel junk st src len e hf hwf hlen he hsrc
  refine ⟨_, h, hk, ?_⟩
  intro hlt
  refine ⟨Nat.clog 2 (e + 1), (hg hlt).1, Nat.le_pow_clog (by decide) _, ?_⟩
  intro j hj
  exact Nat.pow_le_pow_right (by decide) ((Nat.le_pow_iff_clog_le (by decide)).1 hj)


theorem qes_str_fill_charptr_capacity_witness :
    (∃ st', qes_str_fill_charptr 65 (fun _ => 255) (some { s := some [0, 0, 0, 0], l := 0, m := 4 })
        (some [65, 67, 71, 84, 0]) 4 = .ok (1, some st') ∧
      (4 + 1 ≤ 4 → st'.m = 4) ∧
      (4 < 4 + 1 → ∃ k, st'.m = 2 ^ k ∧ 4 + 1 ≤ 2 ^ k ∧ ∀ j, 4 + 1 ≤ 2 ^ j → 2 ^ k ≤ 2 ^ j)) ∧
    qes_str_fill_charptr 65 (fun _ => 255) (some { s := some [0, 0, 0, 0], l := 0, m := 4 })
        (some [65, 67, 71, 84, 0]) 4 =
      .ok (1, some { s := some [65, 67, 71, 84, 0, 255, 255, 255], l := 4, m := 8 }) ∧
    qes_str_fill_charptr 65 (fun _ => 255)
        (some { s := some [0, 0, 0, 0, 0, 0, 0, 0], l := 0, m := 8 })
        (some [65, 67, 71, 84, 65, 67, 71, 0]) 7 =
      .ok (1, some { s := some [65, 67, 71, 84, 65, 67, 71, 0], l := 7, m := 8 }) ∧
    qes_str_fill_charptr 65 (fun _ => 255) (some { s := some [0, 0, 0], l := 0, m := 3 })
        (some [65, 67, 71, 0]) 3 =
      .ok (1, some { s := some [65, 67, 71, 0], l := 3, m := 4 }) :=
  ⟨qes_str_fill_charptr_capacity 65 (fun _ => 255) { s := some [0, 0, 0, 0], l := 0, m := 4 }
    [65, 67, 71, 84, 0] 4 4 (by decide) (by decide) (by decide) (by decide) (by decide),
   by decide, by decide, by decide⟩

/-- C3, as stated, fails: `kmroundupz`, `kmroundup32` and `kmroundup64` all send the power of
two 4 to 8, not to 4. -/
theorem kmroundup_pow_two_not_fixed :
    kmroundupz (2 ^ 2) = 8 ∧ kmroundupz (2 ^ 2) ≠ 2 ^ 2 ∧
    kmroundup32 (2 ^ 2) = 8 ∧ kmroundup32 (2 ^ 2) ≠ 2 ^ 2 ∧
    kmroundup64 (2 ^ 2) = 8 ∧ kmroundup64 (2 ^ 2) ≠ 2 ^ 2 := by decide

/-- C3, amended: the rounding functions send an exact power of two to the next one: for
every `k ≤ 62`, `kmroundupz (2 ^ k) = 2 ^ (k + 1)`, and likewise
`kmroundup32 (2 ^ k) = 2 ^ (k + 1)` for `k ≤ 30` and `kmroundup64 (2 ^ k) = 2 ^ (k + 1)` for
`k ≤ 62`. -/
theorem kmroundup_pow_two_next :
    (∀ k, k ≤ 62 → kmroundupz (2 ^ k) = 2 ^ (k + 1)) ∧
    (∀ k, k ≤ 30 → kmroundup32 (2 ^ k) = 2 ^ (k + 1)) ∧
    (∀ k, k ≤ 62 → kmroundup64 (2 ^ k) = 2 ^ (k + 1)) := by
  have hz : ∀ k, k ≤ 62 → kmroundupz (2 ^ k) = 2 ^ (k + 1) := by
    intro k hk
    rw [kmroundupz_range (2 ^ k) k (by omega) (le_refl _)
      (Nat.pow_lt_pow_right (by decide) (by omega))]
    apply Nat.mod_eq_of_lt
    have : 2 ^ (k + 1) ≤ 2 ^ 63 := Nat.pow_le_pow_right (by decide) (by omega)
    unfold SIZE_MOD
    omega
  refine ⟨hz, ?_, fun k hk => by rw [kmroundup64_eq_kmroundupz]; exact hz k hk⟩
  intro k hk
  rw [kmroundup32_range (2 ^ k) k (by omega) (le_refl _)
    (Nat.pow_lt_pow_right (by decide) (by omega))]
  apply Nat.mod_eq_of_lt
  have : 2 ^ (k + 1) ≤ 2 ^ 31 := Nat.pow_le_pow_right (by decide) (by omega)
  unfold U32_MOD
  omega

theorem kmroundup_pow_two_next_witness :
    kmroundupz (2 ^ 62) = 2 ^ (62 + 1) ∧ kmroundup32 (2 ^ 30) = 2 ^ (30 + 1) ∧
    kmroundup64 (2 ^ 0) = 2 ^ (0 + 1) :=
  ⟨kmroundup_pow_two_next.1 62 (by decide), kmroundup_pow_two_next.2.1 30 (by decide),
    kmroundup_pow_two_next.2.2 0 (by decide)⟩

/-- C4: `qes_str_fill_charptr` fails exactly when the buffer pointer or the source pointer is
null: then it returns 0 and the buffer's storage, length and capacity are unchanged. On
non-null arguments no completed call returns anything but 1, and the call does complete and
return 1 whenever the copied length `e` has `e + 1 ≤ 2 ^ 63` (the source holding `e` bytes
and the capacity field not overstating the allocation). -/
theorem qes_str_fill_charptr_fails_iff_null :
    (∀ fuel junk str cp len, (str = none ∨ cp = none) →
      qes_str_fill_charptr fuel junk str cp len = .ok (0, str)) ∧
    (∀ fuel junk st src len r st',
      qes_str_fill_charptr fuel junk (some st) (some src) len = .ok (r, st') → r = 1) ∧
    (∀ fuel junk st src len e, 65 ≤ fuel → st.m ≤ st.alloc → fill_len src len = .ok e →
      e + 1 ≤ 2 ^ 63 → e ≤ src.length →
      ∃ st', qes_str_fill_charptr fuel junk (some st) (some src) len = .ok (1, some st')) := by
  refine ⟨?_, fill_ret, ?_⟩
  · intro fuel junk str cp len h
    cases str with
    | none => rfl
    | some st =>
      cases cp with
      | none => rfl
      | some src => simp at h
  · intro fuel junk st src len e hf hwf hlen he hsrc
    obtain ⟨b, m, h, _⟩ := fill_spec fuel junk st src len e hf hwf hlen he hsrc
    exact ⟨_, h⟩

theorem qes_str_fill_charptr_fails_iff_null_witness :
    qes_str_fill_charptr 65 (fun _ => 255) (some { s := some [66, 0], l := 1, m := 2 }) none 3 =
      .ok (0, some { s := some [66, 0], l := 1, m := 2 }) ∧
    qes_str_fill_charptr 65 (fun _ => 255) none (some [65, 0]) 1 = .ok (0, none) ∧
    (1 : Int) = 1 ∧
    ∃ st', qes_str_fill_charptr 65 (fun _ => 255) (some { s := some [66, 0], l := 1, m := 2 })
      (some [65, 67, 71, 84, 0]) 0 = .ok (1, some st') :=
  ⟨qes_str_fill_charptr_fails_iff_null.1 65 (fun _ => 255) _ none 3 (Or.inr rfl),
   qes_str_fill_charptr_fails_iff_null.1 65 (fun _ => 255) none _ 1 (Or.inl rfl),
   qes_str_fill_charptr_fails_iff_null.2.1 65 (fun _ => 255) { s := some [66, 0], l := 1, m := 2 }
     [65, 0] 1 1 (some { s := some [65, 0], l := 1, m := 2 }) (by decide),
   qes_str_fill_charptr_fails_iff_null.2.2 65 (fun _ => 255) { s := some [66, 0], l := 1, m := 2 }
     [65, 67, 71, 84, 0] 0 4 (by decide) (by decide) (by decide) (by decide) (by decide)⟩

/-- C5, as stated, fails: filling the absent buffer (non-null struct, storage unallocated,
capacity 0, length 0) from "ACGT" with length 4 returns 1, not the error value 0, and leaves
the buffer allocated with capacity 8 and length 4. -/
theorem qes_str_fill_charptr_absent_succeeds :
    qes_str_fill_charptr 65 (fun _ => 255) (some { s := none, l := 0, m := 0 })
        (some [65, 67, 71, 84, 0]) 4 =
      .ok (1, some { s := some [65, 67, 71, 84, 0, 255, 255, 255], l := 4, m := 8 }) ∧
    qes_str_fill_charptr 65 (fun _ => 255) (some { s := none, l := 0, m := 0 })
        (some [65, 67, 71, 84, 0]) 4 ≠ .ok (0, some { s := none, l := 0, m := 0 }) := by
  decide

/-- C5, amended: filling an absent buffer (non-null struct, storage unallocated, capacity 0,
length 0) succeeds: for every non-null source and every copied length `e` with
`e + 1 ≤ 2 ^ 63` that the source holds, `qes_str_fill_charptr` returns 1 and leaves the
buffer valid, with length `e`, the `e` bytes copied and terminated, and capacity the
smallest power of two `≥ e + 1`, which is also the size of the new storage. -/
theorem qes_str_fill_charptr_absent (fuel : Nat) (junk : Nat → Nat) (src : List Nat)
    (len e : Nat) (hf : 65 ≤ fuel) (hlen : fill_len src len = .ok e) (he : e + 1 ≤ 2 ^ 63)
    (hsrc : e ≤ src.length) :
    ∃ b k, qes_str_fill_charptr fuel junk (some { s := none, l := 0, m := 0 }) (some src) len =
        .ok (1, some { s := some b, l := e, m := 2 ^ k }) ∧
      qes_str_ok (some { s := some b, l := e, m := 2 ^ k }) = true ∧
      b.take e = src.take e ∧ b[e]? = some 0 ∧ b.length = 2 ^ k ∧
      e + 1 ≤ 2 ^ k ∧ ∀ j, e + 1 ≤ 2 ^ j → 2 ^ k ≤ 2 ^ j := by
  obtain ⟨b, m, h, ht, hg, hm, _, _, hgrow⟩ :=
    fill_spec fuel junk { s := none, l := 0, m := 0 } src len e hf (by decide) hlen he hsrc
  obtain ⟨hm2, hbl⟩ := hgrow (by show 0 < e + 1; omega)
  subst hm2
  refine ⟨b, Nat.clog 2 (e + 1), h, ?_, ht, hg, hbl, hm, ?_⟩
  · simp [qes_str_ok]
  · intro j hj
    exact Nat.pow_le_pow_right (by decide) ((Nat.le_pow_iff_clog_le (by decide)).1 hj)

theorem qes_str_fill_charptr_absent_witness :
    ∃ b k, qes_str_fill_charptr 65 (fun _ => 255) (some { s := none, l := 0, m := 0 })
        (some [65, 67, 0]) 2 = .ok (1, some { s := some b, l := 2, m := 2 ^ k }) ∧
      qes_str_ok (some { s := some b, l := 2, m := 2 ^ k }) = true ∧
      b.take 2 = [65, 67] ∧ b[2]? = some 0 ∧ b.length = 2 ^ k ∧
      2 + 1 ≤ 2 ^ k ∧ ∀ j, 2 + 1 ≤ 2 ^ j → 2 ^ k ≤ 2 ^ j :=
  qes_str_fill_charptr_absent 65 (fun _ => 255) [65, 67, 0] 2 2 (by decide) (by decide)
    (by decide) (by decide)

/-- C6: a length argument of 0 means "use the NUL-terminated length": for every non-null
buffer and every NUL-terminated source `cp` with `strlen(cp) = n`, the call with length 0
succeeds with length `n`, the `n` bytes before the terminator copied and `str.s[n] = 0` (so
length 0 and `str.s[0] = 0` for the empty string), and when `n > 0` its outcome (return
value, bytes, length and capacity) is the outcome of the call with length `n`. -/
theorem qes_str_fill_charptr_len_zero (fuel : Nat) (junk : Nat → Nat) (st : qes_str)
    (src : List Nat) (n : Nat) (hf : 65 ≤ fuel) (hwf : st.m ≤ st.alloc)
    (hn : strlen src = .ok n) (hb : n + 1 ≤ 2 ^ 63) :
    (0 < n →
      qes_str_fill_charptr fuel junk (some st) (some src) 0 =
        qes_str_fill_charptr fuel junk (some st) (some src) n) ∧
    ∃ b m, qes_str_fill_charptr fuel junk (some st) (some src) 0 =
        .ok (1, some { s := some b, l := n, m := m }) ∧
      b.take n = src.take n ∧ b[n]? = some 0 ∧ n + 1 ≤ m := by
  have h0 : fill_len src 0 = .ok n := by simp [fill_len, hn]
  have hle : n ≤ src.length := Nat.le_of_lt (strlen_lt src n hn)
  constructor
  · intro hpos
    have hnn : fill_len src n = .ok n := fill_len_pos src n hpos
    simp only [qes_str_fill_charptr, h0, hnn]
  · obtain ⟨b, m, h, ht, hg, hm, _⟩ := fill_spec fuel junk st src 0 n hf hwf h0 hb hle
    exact ⟨b, m, h, ht, hg, hm⟩

theorem qes_str_fill_charptr_len_zero_witness :
    (qes_str_fill_charptr 65 (fun _ => 255) (some { s := some [0, 0], l := 0, m := 2 })
        (some [65, 67, 71, 84, 0]) 0 =
      qes_str_fill_charptr 65 (fun _ => 255) (some { s := some [0, 0], l := 0, m := 2 })
        (some [65, 67, 71, 84, 0]) 4) ∧
    (∃ b m, qes_str_fill_charptr 65 (fun _ => 255) (some { s := some [0, 0], l := 0, m := 2 })
        (some [65, 67, 71, 84, 0]) 0 = .ok (1, some { s := some b, l := 4, m := m }) ∧
      b.take 4 = [65, 67, 71, 84] ∧ b[4]? = some 0 ∧ 4 + 1 ≤ m) ∧
    (∃ b m, qes_str_fill_charptr 65 (fun _ => 255) (some { s := some [66, 0], l := 1, m := 2 })
        (some [0]) 0 = .ok (1, some { s := some b, l := 0, m := m }) ∧
      b.take 0 = [] ∧ b[0]? = some 0 ∧ 0 + 1 ≤ m) :=
  ⟨(qes_str_fill_charptr_len_zero 65 (fun _ => 255) { s := some [0, 0], l := 0, m := 2 }
      [65, 67, 71, 84, 0] 4 (by decide) (by decide) (by decide) (by decide)).1 (by decide),
   (qes_str_fill_charptr_len_zero 65 (fun _ => 255) { s := some [0, 0], l := 0, m := 2 }
      [65, 67, 71, 84, 0] 4 (by decide) (by decide) (by decide) (by decide)).2,
   (qes_str_fill_charptr_len_zero 65 (fun _ => 255) { s := some [66, 0], l := 1, m := 2 }
      [0] 0 (by decide) (by decide) (by decide) (by decide)).2⟩

/-- C7: for every valid buffer (whose capacity field does not overstate its allocation)
`qes_str_nullify` returns 0, sets the length to 0 and the byte at offset 0 to zero, and
leaves the capacity and every byte at offset `≥ 1` unchanged; for every buffer that is not
valid (null pointer, null storage, or capacity 0) it returns 1 and changes nothing. -/
theorem qes_str_nullify_spec :
    (∀ st, qes_str_ok (some st) = true → st.m ≤ st.alloc →
      ∃ d b, st.s = some d ∧
        qes_str_nullify (some st) = .ok (0, some { s := some b, l := 0, m := st.m }) ∧
        b[0]? = some 0 ∧ b.length = d.length ∧ ∀ i, 1 ≤ i → b[i]? = d[i]?) ∧
    (∀ str, qes_str_ok str = false → qes_str_nullify str = .ok (1, str)) := by
  constructor
  · intro st hok hwf
    have hm : 0 < st.m := by
      simp [qes_str_ok] at hok; exact hok.2
    obtain ⟨d, hs, hd⟩ := storage_of_capacity st hwf hm
    have hd0 : 0 < d.length := by omega
    refine ⟨d, d.set 0 0, hs, ?_, ?_, by simp, ?_⟩
    · simp [qes_str_nullify, hok, hs, store, hd0, bind, Except.bind, pure, Except.pure]
    · rw [List.getElem?_set_self (by simpa using hd0)]
    · intro i hi
      rw [List.getElem?_set_ne (by omega)]
  · intro str h
    simp [qes_str_nullify, h]

theorem qes_str_nullify_spec_witness :
    (∃ d b, (some [65, 67, 0, 0] : Option (List Nat)) = some d ∧
        qes_str_nullify (some { s := some [65, 67, 0, 0], l := 2, m := 4 }) =
          .ok (0, some { s := some b, l := 0, m := 4 }) ∧
        b[0]? = some 0 ∧ b.length = d.length ∧ ∀ i, 1 ≤ i → b[i]? = d[i]?) ∧
    qes_str_nullify (some { s := none, l := 0, m := 0 }) =
      .ok (1, some { s := none, l := 0, m := 0 }) :=
  ⟨qes_str_nullify_spec.1 { s := some [65, 67, 0, 0], l := 2, m := 4 } (by decide) (by decide),
   qes_str_nullify_spec.2 (some { s := none, l := 0, m := 0 }) (by decide)⟩

/-- A copy that passes the guard and runs to completion returns 0. -/
theorem copy_ret (d sr : qes_str) (r : Int) (d' : Option qes_str)
    (h : qes_str_copy (some d) (some sr) = .ok (r, d')) :
    r = 0 ∨ (r = 1 ∧ qes_str_ok (some sr) = false) := by
  by_cases hok : qes_str_ok (some sr) = true
  · left
    simp only [qes_str_copy, hok, Bool.not_true, Option.isNone_some, Bool.or_self,
      Bool.false_eq_true, if_false, qes_str_init, bind, Except.bind, pure, Except.pure] at h
    repeat' split at h
    all_goals first
      | (cases h; done)
      | (cases h; rfl)
  · right
    have hf : qes_str_ok (some sr) = false := by simpa using hok
    simp [qes_str_copy, hf] at h
    exact ⟨h.1.symm, hf⟩

/-- The exact result of a copy into a destination that is not valid. -/
theorem copy_invalid_dest (d sr : qes_str) (sb : List Nat) (hs : sr.s = some sb)
    (hm : 0 < sr.m) (hsb : sr.m ≤ sb.length) (hd : qes_str_ok (some d) = false) :
    qes_str_copy (some d) (some sr) =
      .ok (0, some { s := some (sb.take sr.m ++ (List.replicate sr.m 0).drop sr.m),
                     l := 0, m := sr.m }) := by
  have hok : qes_str_ok (some sr) = true := by simp [qes_str_ok, hs, hm]
  simp [qes_str_copy, hok, hd, qes_str_init, qes_calloc, memcpy, hs, hsb, bind, Except.bind,
    pure, Except.pure]

/-- The exact result of a copy into a valid destination that is large enough. -/
theorem copy_valid_dest (d sr : qes_str) (sb db : List Nat) (hs : sr.s = some sb)
    (hm : 0 < sr.m) (hsb : sr.m ≤ sb.length) (hd : qes_str_ok (some d) = true)
    (hds : d.s = some db) (hdb : sr.m ≤ db.length) :
    qes_str_copy (some d) (some sr) =
      .ok (0, some { s := some (sb.take sr.m ++ db.drop sr.m), l := d.l, m := d.m }) := by
  have hok : qes_str_ok (some sr) = true := by simp [qes_str_ok, hs, hm]
  simp [qes_str_copy, hok, hd, memcpy, hs, hds, hsb, hdb, bind, Except.bind,
    pure, Except.pure]


theorem ok_fields (st : qes_str) (h : qes_str_ok (some st) = true) :
    0 < st.m ∧ ∃ d, st.s = some d := by
  simp only [qes_str_ok, Bool.and_eq_true, decide_eq_true_eq] at h
  exact ⟨h.2, Option.isSome_iff_exists.1 h.1⟩

/-- C8: for every valid `src` (whose capacity field does not overstate its allocation) and
every non-null `dest` that is either not valid or has a capacity `≥ src.m` (not overstating
its allocation), `qes_str_copy` returns 0; a `dest` that was not valid is first initialised
with capacity exactly `src.m` and is valid afterwards; and the first `src.m` bytes of
`dest`'s storage then equal the first `src.m` bytes of `src`'s storage. `src` is only read. -/
theorem qes_str_copy_success (d sr : qes_str) (hsrc : qes_str_ok (some sr) = true)
    (hswf : sr.m ≤ sr.alloc)
    (hcap : qes_str_ok (some d) = true → sr.m ≤ d.m ∧ d.m ≤ d.alloc) :
    ∃ sb d', sr.s = some sb ∧ qes_str_copy (some d) (some sr) = .ok (0, some d') ∧
      (∃ b, d'.s = some b ∧ b.take sr.m = sb.take sr.m) ∧
      (qes_str_ok (some d) = false →
        d'.m = sr.m ∧ d'.alloc = sr.m ∧ qes_str_ok (some d') = true) := by
  obtain ⟨hm, _⟩ := ok_fields sr hsrc
  obtain ⟨sb, hs, hsb⟩ := storage_of_capacity sr hswf hm
  have htl : (sb.take sr.m).length = sr.m := by simp [hsb]
  by_cases hd : qes_str_ok (some d) = true
  · obtain ⟨h1, h2⟩ := hcap hd
    obtain ⟨hdm, _⟩ := ok_fields d hd
    obtain ⟨db, hds, hdb⟩ := storage_of_capacity d h2 hdm
    refine ⟨sb, _, hs, copy_valid_dest d sr sb db hs hm hsb hd hds (by omega), ⟨_, rfl, ?_⟩, ?_⟩
    · rw [List.take_left' htl]
    · intro hf; rw [hd] at hf; cases hf
  · have hf : qes_str_ok (some d) = false := by simpa using hd
    refine ⟨sb, _, hs, copy_invalid_dest d sr sb hs hm hsb hf, ⟨_, rfl, ?_⟩, ?_⟩
    · rw [List.take_left' htl]
    · intro _
      refine ⟨rfl, ?_, ?_⟩
      · simp [qes_str.alloc, hsb]
      · simp [qes_str_ok, hm]

theorem qes_str_copy_success_witness :
    ∃ sb d', (some [84, 69, 83, 84, 0, 0, 0, 0] : Option (List Nat)) = some sb ∧
      qes_str_copy (some { s := none, l := 0, m := 0 })
        (some { s := some [84, 69, 83, 84, 0, 0, 0, 0], l := 4, m := 8 }) = .ok (0, some d') ∧
      (∃ b, d'.s = some b ∧ b.take 8 = sb.take 8) ∧
      (qes_str_ok (some { s := none, l := 0, m := 0 }) = false →
        d'.m = 8 ∧ d'.alloc = 8 ∧ qes_str_ok (some d') = true) :=
  qes_str_copy_success { s := none, l := 0, m := 0 }
    { s := some [84, 69, 83, 84, 0, 0, 0, 0], l := 4, m := 8 } (by decide) (by decide)
    (by decide)

/-- C9: `qes_str_copy` fails exactly when `src` is not valid (null, null storage, or capacity
0) or `dest` is null: in those cases it returns 1 and `dest` is left completely unchanged; in
every other case no completed call returns anything but 0, and the call does complete and
return 0 whenever the `src.m` bytes it copies lie inside both objects. -/
theorem qes_str_copy_fails_iff :
    (∀ dest src, (qes_str_ok src = false ∨ dest = none) →
      qes_str_copy dest src = .ok (1, dest)) ∧
    (∀ d sr r d', qes_str_ok (some sr) = true →
      qes_str_copy (some d) (some sr) = .ok (r, d') → r = 0) ∧
    (∀ d sr, qes_str_ok (some sr) = true → sr.m ≤ sr.alloc →
      (qes_str_ok (some d) = true → sr.m ≤ d.alloc) →
      ∃ d', qes_str_copy (some d) (some sr) = .ok (0, some d')) := by
  refine ⟨?_, ?_, ?_⟩
  · intro dest src h
    rcases h with h | h
    · simp [qes_str_copy, h]
    · subst h
      simp [qes_str_copy]
  · intro d sr r d' hok h
    rcases copy_ret d sr r d' h with h0 | ⟨_, hf⟩
    · exact h0
    · rw [hok] at hf; cases hf
  · intro d sr hsrc hswf hcap
    obtain ⟨hm, _⟩ := ok_fields sr hsrc
    obtain ⟨sb, hs, hsb⟩ := storage_of_capacity sr hswf hm
    by_cases hd : qes_str_ok (some d) = true
    · obtain ⟨_, db, hds⟩ := ok_fields d hd
      have hdb : sr.m ≤ db.length := by simpa [qes_str.alloc, hds] using hcap hd
      exact ⟨_, copy_valid_dest d sr sb db hs hm hsb hd hds hdb⟩
    · have hf : qes_str_ok (some d) = false := by simpa using hd
      exact ⟨_, copy_invalid_dest d sr sb hs hm hsb hf⟩

theorem qes_str_copy_fails_iff_witness :
    qes_str_copy (some { s := some [66, 0], l := 1, m := 2 }) (some { s := none, l := 0, m := 0 }) =
      .ok (1, some { s := some [66, 0], l := 1, m := 2 }) ∧
    qes_str_copy none (some { s := some [84, 0], l := 1, m := 2 }) = .ok (1, none) ∧
    (0 : Int) = 0 ∧
    ∃ d', qes_str_copy (some { s := some [66, 0, 0, 0], l := 1, m := 4 })
      (some { s := some [84, 0], l := 1, m := 2 }) = .ok (0, some d') :=
  ⟨qes_str_copy_fails_iff.1 (some { s := some [66, 0], l := 1, m := 2 })
     (some { s := none, l := 0, m := 0 }) (Or.inl (by decide)),
   qes_str_copy_fails_iff.1 none (some { s := some [84, 0], l := 1, m := 2 }) (Or.inr rfl),
   qes_str_copy_fails_iff.2.1 { s := some [66, 0, 0, 0], l := 1, m := 4 }
     { s := some [84, 0], l := 1, m := 2 } 0
     (some { s := some [84, 0, 0, 0], l := 1, m := 4 }) (by decide) (by decide),
   qes_str_copy_fails_iff.2.2 { s := some [66, 0, 0, 0], l := 1, m := 4 }
     { s := some [84, 0], l := 1, m := 2 } (by decide) (by decide) (by decide)⟩

/-- C10: `qes_str_ok(str)` is true iff `str` is non-null, its storage is non-null and its
capacity is `> 0` (so it is false for a null pointer and for an absent buffer). For every
capacity `c > 0`, `qes_str_init` and `qes_str_create` yield a buffer with length 0, capacity
exactly `c`, storage of `c` zero bytes, and `qes_str_ok` true; for `c = 0` the resulting
buffer has capacity 0 and `qes_str_ok` is false. -/
theorem qes_str_ok_init_create :
    (∀ str, qes_str_ok str = true ↔ ∃ st, str = some st ∧ st.s ≠ none ∧ 0 < st.m) ∧
    qes_str_ok none = false ∧ qes_str_ok (some { s := none, l := 0, m := 0 }) = false ∧
    (∀ st0 c, 0 < c →
      qes_str_init (some st0) c = some { s := some (List.replicate c 0), l := 0, m := c } ∧
      qes_str_ok (qes_str_init (some st0) c) = true) ∧
    (∀ c, 0 < c →
      qes_str_create c = some { s := some (List.replicate c 0), l := 0, m := c } ∧
      qes_str_ok (qes_str_create c) = true) ∧
    (∀ st0, ∃ st, qes_str_init (some st0) 0 = some st ∧ st.l = 0 ∧ st.m = 0 ∧
      qes_str_ok (some st) = false) ∧
    (∃ st, qes_str_create 0 = some st ∧ st.l = 0 ∧ st.m = 0 ∧ qes_str_ok (some st) = false) := by
  refine ⟨?_, rfl, rfl, ?_, ?_, ?_, ?_⟩
  · intro str
    cases str with
    | none => simp [qes_str_ok]
    | some st =>
      simp [qes_str_ok, Option.isSome_iff_ne_none]
  · intro st0 c hc
    simp [qes_str_init, qes_calloc, qes_str_ok, hc]
  · intro c hc
    simp [qes_str_create, qes_str_init, qes_calloc, qes_str_ok, hc]
  · intro st0
    exact ⟨_, rfl, rfl, rfl, by simp [qes_str_ok]⟩
  · exact ⟨_, rfl, rfl, rfl, by simp [qes_str_ok]⟩

theorem qes_str_ok_init_create_witness :
    (qes_str_init (some { s := none, l := 7, m := 0 }) 3 = some { s := some [0, 0, 0], l := 0, m := 3 } ∧
      qes_str_ok (qes_str_init (some { s := none, l := 7, m := 0 }) 3) = true) ∧
    (qes_str_create 4 = some { s := some [0, 0, 0, 0], l := 0, m := 4 } ∧
      qes_str_ok (qes_str_create 4) = true) :=
  ⟨qes_str_ok_init_create.2.2.2.1 { s := none, l := 7, m := 0 } 3 (by decide),
   qes_str_ok_init_create.2.2.2.2.1 4 (by decide)⟩

/-! ## The sequence record -/

/-! ### The steps of the header tokenizer -/

theorem header_split (n c : List Nat) (hn : 32 ∉ n) :
    header_name (n ++ 32 :: c) = n ∧ header_comment (n ++ 32 :: c) = c := by
  induction n with
  | nil => simp [header_name, header_comment]
  | cons a n ih =>
    have ha : a ≠ 32 := fun h => hn (by simp [h])
    have hn' : 32 ∉ n := fun h => hn (by simp [h])
    obtain ⟨h1, h2⟩ := ih hn'
    constructor
    · simp only [header_name, List.cons_append] at h1 ⊢
      rw [List.takeWhile_cons_of_pos (by simpa using ha), h1]
    · simp only [header_comment, List.cons_append] at h2 ⊢
      rw [List.dropWhile_cons_of_pos (by simpa using ha), h2]

theorem header_no_space (l : List Nat) (hl : 32 ∉ l) :
    header_name l = l ∧ header_comment l = [] := by
  induction l with
  | nil => simp [header_name, header_comment]
  | cons a l ih =>
    have ha : a ≠ 32 := fun h => hl (by simp [h])
    have hl' : 32 ∉ l := fun h => hl (by simp [h])
    obtain ⟨h1, h2⟩ := ih hl'
    constructor
    · simp only [header_name] at h1 ⊢
      rw [List.takeWhile_cons_of_pos (by simpa using ha), h1]
    · simp only [header_comment] at h2 ⊢
      rw [List.dropWhile_cons_of_pos (by simpa using ha), h2]

theorem header_name_length (l : List Nat) : (header_name l).length ≤ l.length := by
  unfold header_name
  exact (List.takeWhile_sublist _).length_le

theorem header_comment_length (l : List Nat) : (header_comment l).length ≤ l.length := by
  unfold header_comment
  have h := (List.dropWhile_sublist (fun c => decide (c ≠ 32)) (l := l)).length_le
  simp only [List.length_drop]
  omega

theorem strip_marker_length (l : List Nat) : (strip_marker l).length ≤ l.length := by
  cases l with
  | nil => simp [strip_marker]
  | cons c cs =>
    simp only [strip_marker]
    split <;> simp

theorem strip_last_length (c : Nat) (l : List Nat) : (strip_last c l).length ≤ l.length := by
  unfold strip_last
  split <;> simp

theorem strip_crlf_length (l : List Nat) : (strip_crlf l).length ≤ l.length :=
  Nat.le_trans (strip_last_length 13 _) (strip_last_length 10 l)

theorem strip_spaces_concat (l : List Nat) (a : Nat) :
    strip_spaces (l ++ [a]) = if a = 32 then strip_spaces l else l ++ [a] := by
  unfold strip_spaces
  rw [List.rdropWhile_concat]
  by_cases h : a = 32 <;> simp [h]

theorem strip_spaces_length (l : List Nat) : (strip_spaces l).length ≤ l.length := by
  induction l using List.reverseRecOn with
  | nil => simp [strip_spaces]
  | append_singleton l a ih =>
    rw [strip_spaces_concat]
    split
    · simp only [List.length_append, List.length_singleton]; omega
    · exact le_refl _

theorem strip_eol_length (l : List Nat) : (strip_eol l).length ≤ l.length :=
  Nat.le_trans (strip_spaces_length _) (strip_crlf_length l)

/-- The length of the content left by steps 3 and 4 is at most the length read. -/
theorem content_length (line : List Nat) (e : Nat) :
    (strip_eol (strip_marker (line.take e))).length ≤ e := by
  have h1 := strip_eol_length (strip_marker (line.take e))
  have h2 := strip_marker_length (line.take e)
  have h3 : (line.take e).length ≤ e := by simp
  omega

/-- A token handed over as a null-terminated text of its own has its own length, also when
that length is 0. -/
theorem token_len (t : List Nat) : fill_len (t ++ [0]) t.length = .ok t.length := by
  cases t with
  | nil => simp [fill_len, strlen]
  | cons a t => exact fill_len_pos _ _ (by simp)

/-- Filling a buffer from a token. -/
theorem fill_token (fuel : Nat) (junk : Nat → Nat) (st : qes_str) (t : List Nat)
    (hf : 65 ≤ fuel) (hwf : st.m ≤ st.alloc) (ht : t.length + 1 ≤ 2 ^ 63) :
    ∃ b m, qes_str_fill_charptr fuel junk (some st) (some (t ++ [0])) t.length =
        .ok (1, some { s := some b, l := t.length, m := m }) ∧
      b.take t.length = t ∧ b[t.length]? = some 0 ∧ t.length + 1 ≤ m ∧ m ≤ b.length := by
  obtain ⟨b, m, h, h1, h2, h3, h4, _⟩ :=
    fill_spec fuel junk st (t ++ [0]) t.length t.length hf hwf (token_len t) ht (by simp)
  refine ⟨b, m, h, ?_, h2, h3, h4⟩
  rw [h1, List.take_left' rfl]

/-- The result of every header fill on a non-null record and line: name and comment hold
the two tokens of the content, the other two fields are untouched. -/
theorem fill_header_spec (fuel : Nat) (junk : Nat → Nat) (r : qes_seq) (line : List Nat)
    (len e : Nat) (hf : 65 ≤ fuel) (hname : r.name.m ≤ r.name.alloc)
    (hcomment : r.comment.m ≤ r.comment.alloc) (hlen : header_len line len = .ok e)
    (he : e ≤ line.length) (hsz : line.length < 2 ^ 63) :
    ∃ bn mn bc mc,
      qes_seq_fill_header fuel junk (some r) (some line) len =
        .ok (0, some { name := { s := some bn,
                                 l := (header_name (strip_eol (strip_marker (line.take e)))).length,
                                 m := mn },
                       comment := { s := some bc,
                                    l := (header_comment
                                      (strip_eol (strip_marker (line.take e)))).length,
                                    m := mc },
                       seq := r.seq, qual := r.qual }) ∧
      bn.take (header_name (strip_eol (strip_marker (line.take e)))).length =
        header_name (strip_eol (strip_marker (line.take e))) ∧
      bn[(header_name (strip_eol (strip_marker (line.take e)))).length]? = some 0 ∧
      (header_name (strip_eol (strip_marker (line.take e)))).length + 1 ≤ mn ∧
      mn ≤ bn.length ∧
      bc.take (header_comment (strip_eol (strip_marker (line.take e)))).length =
        header_comment (strip_eol (strip_marker (line.take e))) ∧
      bc[(header_comment (strip_eol (strip_marker (line.take e)))).length]? = some 0 ∧
      (header_comment (strip_eol (strip_marker (line.take e)))).length + 1 ≤ mc ∧
      mc ≤ bc.length := by
  have hc := content_length line e
  have hn := header_name_length (strip_eol (strip_marker (line.take e)))
  have hm := header_comment_length (strip_eol (strip_marker (line.take e)))
  obtain ⟨bn, mn, hfn, n1, n2, n3, n4⟩ :=
    fill_token fuel junk r.name (header_name (strip_eol (strip_marker (line.take e)))) hf hname
      (by omega)
  obtain ⟨bc, mc, hfc, c1, c2, c3, c4⟩ :=
    fill_token fuel junk r.comment (header_comment (strip_eol (strip_marker (line.take e)))) hf
      hcomment (by omega)
  refine ⟨bn, mn, bc, mc, ?_, n1, n2, n3, n4, c1, c2, c3, c4⟩
  simp only [qes_seq_fill_header, hlen, bind, Except.bind, Nat.not_lt.2 he, if_false, hfn, hfc,
    pure, Except.pure, Option.getD_some]

/-- A header fill on a non-null record and line that runs to completion returns 0. -/
theorem fill_header_ret (fuel : Nat) (junk : Nat → Nat) (r : qes_seq) (line : List Nat)
    (len : Nat) (ret : Int) (r' : Option qes_seq)
    (h : qes_seq_fill_header fuel junk (some r) (some line) len = .ok (ret, r')) : ret = 0 := by
  simp only [qes_seq_fill_header, bind, Except.bind, pure, Except.pure] at h
  repeat' split at h
  all_goals first
    | (cases h; done)
    | (cases h; rfl)

/-- Two header fills that read the same content have the same outcome. -/
theorem fill_header_congr (fuel : Nat) (junk : Nat → Nat) (seq : Option qes_seq)
    (line1 line2 : List Nat) (len1 len2 e1 e2 : Nat)
    (h1 : header_len line1 len1 = .ok e1) (b1 : e1 ≤ line1.length)
    (h2 : header_len line2 len2 = .ok e2) (b2 : e2 ≤ line2.length)
    (hc : strip_eol (strip_marker (line1.take e1)) = strip_eol (strip_marker (line2.take e2))) :
    qes_seq_fill_header fuel junk seq (some line1) len1 =
      qes_seq_fill_header fuel junk seq (some line2) len2 := by
  cases seq with
  | none => rfl
  | some r =>
    simp only [qes_seq_fill_header, h1, h2, bind, Except.bind, Nat.not_lt.2 b1, Nat.not_lt.2 b2,
      if_false, hc]

theorem header_len_pos (line : List Nat) (len : Nat) (h : 1 ≤ len) :
    header_len line len = .ok len := by
  have : len ≠ 0 := by omega
  simp [header_len, this]

theorem strip_last_concat (c : Nat) (l : List Nat) : strip_last c (l ++ [c]) = l := by
  simp [strip_last]

theorem strip_spaces_of_ne (l : List Nat) (h : l.getLast? ≠ some 32) : strip_spaces l = l := by
  induction l using List.reverseRecOn with
  | nil => simp [strip_spaces]
  | append_singleton l a _ =>
    have ha : a ≠ 32 := by
      intro e
      apply h
      simp [e]
    rw [strip_spaces_concat, if_neg ha]

/-- The two tokens of a content `n ++ " " ++ c` whose comment does not end in a space. -/
theorem tokens_of_content (n c : List Nat) (hn : 32 ∉ n) (hc : c.getLast? ≠ some 32) :
    header_name (strip_spaces (n ++ 32 :: c)) = n ∧
    header_comment (strip_spaces (n ++ 32 :: c)) = c := by
  cases c with
  | nil =>
    have hl : n.getLast? ≠ some 32 := by
      intro h
      exact hn (List.mem_of_getLast?_eq_some h)
    have e : strip_spaces (n ++ [32]) = n := by
      rw [strip_spaces_concat, if_pos rfl, strip_spaces_of_ne n hl]
    rw [e]
    exact header_no_space n hn
  | cons a t =>
    have hl : (n ++ 32 :: a :: t).getLast? ≠ some 32 := by
      rw [List.getLast?_append_of_ne_nil _ (by simp)]
      simpa [List.getLast?_cons_cons] using hc
    rw [strip_spaces_of_ne _ hl]
    exact header_split n (a :: t) hn

/-- The split of a header whose normalised content is `n ++ " " ++ c`. -/
theorem fill_header_split (fuel : Nat) (junk : Nat → Nat) (r : qes_seq)
    (line : List Nat) (len e : Nat) (n c : List Nat) (hf : 65 ≤ fuel)
    (hname : r.name.m ≤ r.name.alloc) (hcomment : r.comment.m ≤ r.comment.alloc)
    (hlen : header_len line len = .ok e) (he : e ≤ line.length) (hsz : line.length < 2 ^ 63)
    (h1 : header_name (strip_eol (strip_marker (line.take e))) = n)
    (h2 : header_comment (strip_eol (strip_marker (line.take e))) = c) :
    ∃ bn mn bc mc,
      qes_seq_fill_header fuel junk (some r) (some line) len =
        .ok (0, some { name := { s := some bn, l := n.length, m := mn },
                       comment := { s := some bc, l := c.length, m := mc },
                       seq := r.seq, qual := r.qual }) ∧
      bn.take n.length = n ∧ bn[n.length]? = some 0 ∧ n.length ≤ mn ∧
      bc.take c.length = c ∧ bc[c.length]? = some 0 ∧ c.length ≤ mc := by
  obtain ⟨bn, mn, bc, mc, h, n1, n2, n3, _, c1, c2, c3, _⟩ :=
    fill_header_spec fuel junk r line len e hf hname hcomment hlen he hsz
  rw [h1] at n1 n2 n3
  rw [h2] at c1 c2 c3
  rw [h1, h2] at h
  exact ⟨bn, mn, bc, mc, h, n1, n2, by omega, c1, c2, by omega⟩

/-- C11, as stated, fails: the line `"@HWI_TEST COMM \r\n"` (17) has, after the leading `@`
and the trailing `\r\n` are removed, the content `"HWI_TEST" ++ " " ++ "COMM "` with no
space in `"HWI_TEST"`, yet the comment it leaves is `"COMM"` of length 4, not `"COMM "` of
length 5: the space before the line ending does not stay in the comment. -/
theorem qes_seq_fill_header_split_trailing_space :
    strip_crlf (strip_marker ((bytes "@HWI_TEST COMM " ++ [13, 10, 0]).take 17)) =
      bytes "HWI_TEST" ++ 32 :: bytes "COMM " ∧
    32 ∉ bytes "HWI_TEST" ∧
    qes_seq_fill_header 65 (fun _ => 255) (qes_seq_create 4)
        (some (bytes "@HWI_TEST COMM " ++ [13, 10, 0])) 17 =
      .ok (0, some { name := { s := some (bytes "HWI_TEST" ++ [0, 255, 255, 255, 255, 255, 255, 255]),
                               l := 8, m := 16 },
                     comment := { s := some (bytes "COMM" ++ [0, 255, 255, 255]), l := 4, m := 8 },
                     seq := { s := some [0, 0, 0, 0], l := 0, m := 4 },
                     qual := { s := some [0, 0, 0, 0], l := 0, m := 4 } }) ∧
    (bytes "COMM ").length = 5 := by
  decide

/-- C11, amended: for every record (its name and comment capacities not overstating their
allocations) and every line (the `e` bytes read: `len`, or `strlen` of the line when `len` is 0) whose
content, after removing at most one leading `>` or `@` and the trailing line ending (one
`\n`, then one `\r`), is `n ++ " " ++ c` with `n`
containing no space and `c` not ending in a space, `qes_seq_fill_header` returns 0 and
leaves name `= n` with `name.l = |n|` and comment `= c` with `comment.l = |c|`, both
null-terminated; `c` may be empty and may contain further spaces inside. Sequence and
quality are untouched. -/
theorem qes_seq_fill_header_split (fuel : Nat) (junk : Nat → Nat) (r : qes_seq)
    (line : List Nat) (len e : Nat) (n c : List Nat) (hf : 65 ≤ fuel)
    (hname : r.name.m ≤ r.name.alloc) (hcomment : r.comment.m ≤ r.comment.alloc)
    (hlen : (if len = 0 then strlen line else Except.ok len) = Except.ok e)
    (he : e ≤ line.length) (hsz : line.length < 2 ^ 63)
    (hcontent : strip_crlf (strip_marker (line.take e)) = n ++ 32 :: c) (hn : 32 ∉ n)
    (hc : c.getLast? ≠ some 32) :
    ∃ bn mn bc mc,
      qes_seq_fill_header fuel junk (some r) (some line) len =
        .ok (0, some { name := { s := some bn, l := n.length, m := mn },
                       comment := { s := some bc, l := c.length, m := mc },
                       seq := r.seq, qual := r.qual }) ∧
      bn.take n.length = n ∧ bn[n.length]? = some 0 ∧ n.length ≤ mn ∧
      bc.take c.length = c ∧ bc[c.length]? = some 0 ∧ c.length ≤ mc := by
  obtain ⟨e1, e2⟩ := tokens_of_content n c hn hc
  have hlen' : header_len line len = .ok e := hlen
  have hk : strip_eol (strip_marker (line.take e)) = strip_spaces (n ++ 32 :: c) := by
    unfold strip_eol; rw [hcontent]
  exact fill_header_split fuel junk r line len e n c hf hname hcomment hlen' he hsz
    (by rw [hk]; exact e1) (by rw [hk]; exact e2)

theorem qes_seq_fill_header_split_witness :
    (∃ bn mn bc mc,
      qes_seq_fill_header 65 (fun _ => 255) (qes_seq_create 4)
          (some (bytes "@@x y z" ++ [13, 10, 0])) 9 =
        .ok (0, some { name := { s := some bn, l := 2, m := mn },
                       comment := { s := some bc, l := 3, m := mc },
                       seq := { s := some [0, 0, 0, 0], l := 0, m := 4 },
                       qual := { s := some [0, 0, 0, 0], l := 0, m := 4 } }) ∧
      bn.take 2 = [64, 120] ∧ bn[2]? = some 0 ∧ 2 ≤ mn ∧
      bc.take 3 = [121, 32, 122] ∧ bc[3]? = some 0 ∧ 3 ≤ mc) ∧
    (∃ bn mn bc mc,
      qes_seq_fill_header 65 (fun _ => 255) (qes_seq_create 4)
          (some (bytes ">x " ++ [10, 0])) 4 =
        .ok (0, some { name := { s := some bn, l := 1, m := mn },
                       comment := { s := some bc, l := 0, m := mc },
                       seq := { s := some [0, 0, 0, 0], l := 0, m := 4 },
                       qual := { s := some [0, 0, 0, 0], l := 0, m := 4 } }) ∧
      bn.take 1 = [120] ∧ bn[1]? = some 0 ∧ 1 ≤ mn ∧
      bc.take 0 = [] ∧ bc[0]? = some 0 ∧ 0 ≤ mc) ∧
    qes_seq_fill_header 65 (fun _ => 255) (qes_seq_create 4)
        (some (bytes "@HWI_TEST COMM" ++ [0])) 14 =
      .ok (0, some { name := { s := some (bytes "HWI_TEST" ++ [0, 255, 255, 255, 255, 255, 255, 255]),
                               l := 8, m := 16 },
                     comment := { s := some (bytes "COMM" ++ [0, 255, 255, 255]), l := 4, m := 8 },
                     seq := { s := some [0, 0, 0, 0], l := 0, m := 4 },
                     qual := { s := some [0, 0, 0, 0], l := 0, m := 4 } }) ∧
    qes_seq_fill_header 65 (fun _ => 255) (qes_seq_create 4)
        (some (bytes ">HWI_TEST COMM" ++ [0])) 14 =
      qes_seq_fill_header 65 (fun _ => 255) (qes_seq_create 4)
        (some (bytes "@HWI_TEST COMM" ++ [0])) 14 ∧
    qes_seq_fill_header 65 (fun _ => 255) (qes_seq_create 4)
        (some (bytes "HWI_TEST COMM" ++ [0])) 13 =
      qes_seq_fill_header 65 (fun _ => 255) (qes_seq_create 4)
        (some (bytes "@HWI_TEST COMM" ++ [0])) 14 :=
  ⟨qes_seq_fill_header_split 65 (fun _ => 255)
      { name := { s := some [0, 0, 0, 0], l := 0, m := 4 },
        comment := { s := some [0, 0, 0, 0], l := 0, m := 4 },
        seq := { s := some [0, 0, 0, 0], l := 0, m := 4 },
        qual := { s := some [0, 0, 0, 0], l := 0, m := 4 } }
      (bytes "@@x y z" ++ [13, 10, 0]) 9 9 [64, 120] [121, 32, 122]
      (by decide) (by decide) (by decide) (by decide) (by decide) (by decide) (by decide)
      (by decide) (by decide),
    qes_seq_fill_header_split 65 (fun _ => 255)
      { name := { s := some [0, 0, 0, 0], l := 0, m := 4 },
        comment := { s := some [0, 0, 0, 0], l := 0, m := 4 },
        seq := { s := some [0, 0, 0, 0], l := 0, m := 4 },
        qual := { s := some [0, 0, 0, 0], l := 0, m := 4 } }
      (bytes ">x " ++ [10, 0]) 4 4 [120] []
      (by decide) (by decide) (by decide) (by decide) (by decide) (by decide) (by decide)
      (by decide) (by decide),
    by decide, by decide, by decide⟩

/-- C12: the header tokenizer drops the space that precedes the line ending: for every name
`n` (free of spaces) and every comment `c` that does not end in a space,
`qes_seq_fill_header` on `"@" ++ n ++ " " ++ c ++ " \r\n"`, with the length of that text,
returns 0 with name `= n` and comment `= c` with `comment.l = |c|`, both null-terminated;
the space before the CRLF is not part of the comment. -/
theorem qes_seq_fill_header_drops_space (fuel : Nat) (junk : Nat → Nat) (r : qes_seq)
    (n c rest : List Nat) (hf : 65 ≤ fuel)
    (hname : r.name.m ≤ r.name.alloc) (hcomment : r.comment.m ≤ r.comment.alloc)
    (hsz : (64 :: (n ++ 32 :: (c ++ [32, 13, 10])) ++ rest).length < 2 ^ 63)
    (hn : 32 ∉ n) (hc : c.getLast? ≠ some 32) :
    ∃ bn mn bc mc,
      qes_seq_fill_header fuel junk (some r)
          (some (64 :: (n ++ 32 :: (c ++ [32, 13, 10])) ++ rest))
          (64 :: (n ++ 32 :: (c ++ [32, 13, 10]))).length =
        .ok (0, some { name := { s := some bn, l := n.length, m := mn },
                       comment := { s := some bc, l := c.length, m := mc },
                       seq := r.seq, qual := r.qual }) ∧
      bn.take n.length = n ∧ bn[n.length]? = some 0 ∧ n.length ≤ mn ∧
      bc.take c.length = c ∧ bc[c.length]? = some 0 ∧ c.length ≤ mc := by
  obtain ⟨e1, e2⟩ := tokens_of_content n c hn hc
  have ht : (64 :: (n ++ 32 :: (c ++ [32, 13, 10])) ++ rest).take
      (64 :: (n ++ 32 :: (c ++ [32, 13, 10]))).length = 64 :: (n ++ 32 :: (c ++ [32, 13, 10])) :=
    List.take_left' rfl
  have hm : strip_marker (64 :: (n ++ 32 :: (c ++ [32, 13, 10]))) =
      n ++ 32 :: (c ++ [32, 13, 10]) := by simp [strip_marker]
  have hk : strip_eol (n ++ 32 :: (c ++ [32, 13, 10])) = strip_spaces (n ++ 32 :: c) := by
    have e : n ++ 32 :: (c ++ [32, 13, 10]) = (((n ++ 32 :: c) ++ [32]) ++ [13]) ++ [10] := by
      simp
    unfold strip_eol strip_crlf
    rw [e, strip_last_concat, strip_last_concat, strip_spaces_concat, if_pos rfl]
  exact fill_header_split fuel junk r _ _ _ n c hf hname hcomment
    (header_len_pos _ _ (by simp)) (by simp) hsz
    (by rw [ht, hm, hk]; exact e1) (by rw [ht, hm, hk]; exact e2)

theorem qes_seq_fill_header_drops_space_witness :
    (∃ bn mn bc mc,
      qes_seq_fill_header 65 (fun _ => 255) (qes_seq_create 4)
          (some (bytes "@HWI_TEST COMM " ++ [13, 10, 0])) 17 =
        .ok (0, some { name := { s := some bn, l := 8, m := mn },
                       comment := { s := some bc, l := 4, m := mc },
                       seq := { s := some [0, 0, 0, 0], l := 0, m := 4 },
                       qual := { s := some [0, 0, 0, 0], l := 0, m := 4 } }) ∧
      bn.take 8 = bytes "HWI_TEST" ∧ bn[8]? = some 0 ∧ 8 ≤ mn ∧
      bc.take 4 = bytes "COMM" ∧ bc[4]? = some 0 ∧ 4 ≤ mc) ∧
    strlen (bytes "COMM" ++ [0, 255, 255, 255]) = .ok 4 :=
  ⟨qes_seq_fill_header_drops_space 65 (fun _ => 255)
      { name := { s := some [0, 0, 0, 0], l := 0, m := 4 },
        comment := { s := some [0, 0, 0, 0], l := 0, m := 4 },
        seq := { s := some [0, 0, 0, 0], l := 0, m := 4 },
        qual := { s := some [0, 0, 0, 0], l := 0, m := 4 } }
      (bytes "HWI_TEST") (bytes "COMM") [0]
      (by decide) (by decide) (by decide) (by decide) (by decide) (by decide),
    by decide⟩

/-- C14: for every record (its name and comment capacities not overstating their
allocations, the comment possibly absent) and every line whose content, after the optional
marker and the line ending are removed, contains no space, `qes_seq_fill_header` returns 0,
sets name to the whole content, and leaves comment a valid buffer of length 0 holding the
empty string. -/
theorem qes_seq_fill_header_no_space (fuel : Nat) (junk : Nat → Nat) (r : qes_seq)
    (line : List Nat) (len e : Nat) (hf : 65 ≤ fuel)
    (hname : r.name.m ≤ r.name.alloc) (hcomment : r.comment.m ≤ r.comment.alloc)
    (hlen : header_len line len = .ok e) (he : e ≤ line.length) (hsz : line.length < 2 ^ 63)
    (hcontent : 32 ∉ strip_eol (strip_marker (line.take e))) :
    ∃ bn mn bc mc,
      qes_seq_fill_header fuel junk (some r) (some line) len =
        .ok (0, some { name := { s := some bn,
                                 l := (strip_eol (strip_marker (line.take e))).length, m := mn },
                       comment := { s := some bc, l := 0, m := mc },
                       seq := r.seq, qual := r.qual }) ∧
      bn.take (strip_eol (strip_marker (line.take e))).length =
        strip_eol (strip_marker (line.take e)) ∧
      bn[(strip_eol (strip_marker (line.take e))).length]? = some 0 ∧
      bc[0]? = some 0 ∧ qes_str_ok (some { s := some bc, l := 0, m := mc }) = true := by
  obtain ⟨bn, mn, bc, mc, h, n1, n2, _, _, _, c2, c3, _⟩ :=
    fill_header_spec fuel junk r line len e hf hname hcomment hlen he hsz
  obtain ⟨e1, e2⟩ := header_no_space _ hcontent
  rw [e1] at n1 n2
  rw [e2] at c2 c3
  rw [e1, e2] at h
  refine ⟨bn, mn, bc, mc, h, n1, n2, c2, ?_⟩
  have : 0 < mc := by simpa using c3
  simp [qes_str_ok, this]

theorem qes_seq_fill_header_no_space_witness :
    (∃ bn mn bc mc,
      qes_seq_fill_header 65 (fun _ => 255) (qes_seq_create_no_qual_or_comment 4)
          (some (bytes "@HWI_TEST" ++ [0])) 9 =
        .ok (0, some { name := { s := some bn, l := 8, m := mn },
                       comment := { s := some bc, l := 0, m := mc },
                       seq := { s := some [0, 0, 0, 0], l := 0, m := 4 },
                       qual := { s := none, l := 0, m := 0 } }) ∧
      bn.take 8 = bytes "HWI_TEST" ∧ bn[8]? = some 0 ∧
      bc[0]? = some 0 ∧ qes_str_ok (some { s := some bc, l := 0, m := mc }) = true) ∧
    qes_seq_fill_header 65 (fun _ => 255) (qes_seq_create 4) (some (bytes "@HWI_TEST" ++ [0])) 9 =
      .ok (0, some { name := { s := some (bytes "HWI_TEST" ++ [0, 255, 255, 255, 255, 255, 255, 255]),
                               l := 8, m := 16 },
                     comment := { s := some [0, 0, 0, 0], l := 0, m := 4 },
                     seq := { s := some [0, 0, 0, 0], l := 0, m := 4 },
                     qual := { s := some [0, 0, 0, 0], l := 0, m := 4 } }) ∧
    qes_seq_fill_header 65 (fun _ => 255) (qes_seq_create 4) (some (bytes ">HWI_TEST" ++ [0])) 9 =
      qes_seq_fill_header 65 (fun _ => 255) (qes_seq_create 4)
        (some (bytes "@HWI_TEST" ++ [0])) 9 ∧
    qes_seq_fill_header 65 (fun _ => 255) (qes_seq_create 4) (some (bytes "HWI_TEST" ++ [0])) 8 =
      qes_seq_fill_header 65 (fun _ => 255) (qes_seq_create 4)
        (some (bytes "@HWI_TEST" ++ [0])) 9 :=
  ⟨qes_seq_fill_header_no_space 65 (fun _ => 255)
      { name := { s := some [0, 0, 0, 0], l := 0, m := 4 },
        comment := { s := none, l := 0, m := 0 },
        seq := { s := some [0, 0, 0, 0], l := 0, m := 4 },
        qual := { s := none, l := 0, m := 0 } }
      (bytes "@HWI_TEST" ++ [0]) 9 9
      (by decide) (by decide) (by decide) (by decide) (by decide) (by decide) (by decide),
    by decide, by decide, by decide⟩

/-- C15: `qes_seq_fill_header` returns 1, leaving the record as it is, when the record is
null or the line pointer is null; on a non-null record and line no completed call returns
anything but 0, and the call does complete with 0 whenever the length read lies inside the
line; malformed input degenerates instead of failing: a line with empty content gives name
and comment of length 0, and a content that starts with the space (a header with no name
such as `"@ COMM"`) gives a name of length 0, not the rest of the line, and the comment
after the space. -/
theorem qes_seq_fill_header_fails_iff_null :
    (∀ fuel junk seq header len, (seq = none ∨ header = none) →
      qes_seq_fill_header fuel junk seq header len = .ok (1, seq)) ∧
    (∀ fuel junk r line len ret r',
      qes_seq_fill_header fuel junk (some r) (some line) len = .ok (ret, r') → ret = 0) ∧
    (∀ fuel junk r line len e, 65 ≤ fuel → r.name.m ≤ r.name.alloc →
      r.comment.m ≤ r.comment.alloc → header_len line len = .ok e → e ≤ line.length →
      line.length < 2 ^ 63 →
      ∃ r', qes_seq_fill_header fuel junk (some r) (some line) len = .ok (0, some r')) ∧
    (∀ fuel junk r line len e, 65 ≤ fuel → r.name.m ≤ r.name.alloc →
      r.comment.m ≤ r.comment.alloc → header_len line len = .ok e → e ≤ line.length →
      line.length < 2 ^ 63 → strip_eol (strip_marker (line.take e)) = [] →
      ∃ bn mn bc mc, qes_seq_fill_header fuel junk (some r) (some line) len =
          .ok (0, some { name := { s := some bn, l := 0, m := mn },
                         comment := { s := some bc, l := 0, m := mc },
                         seq := r.seq, qual := r.qual }) ∧
        bn[0]? = some 0 ∧ bc[0]? = some 0) ∧
    (∀ fuel junk r line len e c, 65 ≤ fuel → r.name.m ≤ r.name.alloc →
      r.comment.m ≤ r.comment.alloc → header_len line len = .ok e → e ≤ line.length →
      line.length < 2 ^ 63 → strip_eol (strip_marker (line.take e)) = 32 :: c →
      ∃ bn mn bc mc, qes_seq_fill_header fuel junk (some r) (some line) len =
          .ok (0, some { name := { s := some bn, l := 0, m := mn },
                         comment := { s := some bc, l := c.length, m := mc },
                         seq := r.seq, qual := r.qual }) ∧
        bn[0]? = some 0 ∧ bc.take c.length = c ∧ bc[c.length]? = some 0) := by
  refine ⟨?_, fill_header_ret, ?_, ?_, ?_⟩
  · intro fuel junk seq header len h
    cases seq with
    | none => rfl
    | some r =>
      cases header with
      | none => rfl
      | some line => simp at h
  · intro fuel junk r line len e hf hname hcomment hlen he hsz
    obtain ⟨bn, mn, bc, mc, h, _⟩ :=
      fill_header_spec fuel junk r line len e hf hname hcomment hlen he hsz
    exact ⟨_, h⟩
  · intro fuel junk r line len e hf hname hcomment hlen he hsz hc
    obtain ⟨bn, mn, bc, mc, h, _, n2, _, _, _, c2, _, _⟩ :=
      fill_header_spec fuel junk r line len e hf hname hcomment hlen he hsz
    rw [hc] at h n2 c2
    exact ⟨bn, mn, bc, mc, h, n2, c2⟩
  · intro fuel junk r line len e c hf hname hcomment hlen he hsz hc
    obtain ⟨bn, mn, bc, mc, h, _, n2, _, _, c1, c2, _, _⟩ :=
      fill_header_spec fuel junk r line len e hf hname hcomment hlen he hsz
    obtain ⟨e1, e2⟩ := header_split [] c (by simp)
    simp only [List.nil_append] at e1 e2
    rw [hc, e1] at n2
    rw [hc, e2] at c1 c2
    rw [hc, e1, e2] at h
    exact ⟨bn, mn, bc, mc, h, n2, c1, c2⟩

theorem qes_seq_fill_header_fails_iff_null_witness :
    qes_seq_fill_header 65 (fun _ => 255) none (some (bytes "BAD" ++ [0])) 3 = .ok (1, none) ∧
    qes_seq_fill_header 65 (fun _ => 255) (qes_seq_create 4) none 3 =
      .ok (1, qes_seq_create 4) ∧
    (0 : Int) = 0 ∧
    (∃ r', qes_seq_fill_header 65 (fun _ => 255)
        (some { name := { s := some [0, 0, 0, 0], l := 0, m := 4 },
                comment := { s := some [0, 0, 0, 0], l := 0, m := 4 },
                seq := { s := some [0, 0, 0, 0], l := 0, m := 4 },
                qual := { s := some [0, 0, 0, 0], l := 0, m := 4 } })
        (some (bytes "BAD" ++ [0])) 3 = .ok (0, some r')) ∧
    (∃ bn mn bc mc, qes_seq_fill_header 65 (fun _ => 255)
        (some { name := { s := some [0, 0, 0, 0], l := 0, m := 4 },
                comment := { s := some [0, 0, 0, 0], l := 0, m := 4 },
                seq := { s := some [0, 0, 0, 0], l := 0, m := 4 },
                qual := { s := some [0, 0, 0, 0], l := 0, m := 4 } })
        (some [0]) 0 =
          .ok (0, some { name := { s := some bn, l := 0, m := mn },
                         comment := { s := some bc, l := 0, m := mc },
                         seq := { s := some [0, 0, 0, 0], l := 0, m := 4 },
                         qual := { s := some [0, 0, 0, 0], l := 0, m := 4 } }) ∧
        bn[0]? = some 0 ∧ bc[0]? = some 0) ∧
    (∃ bn mn bc mc, qes_seq_fill_header 65 (fun _ => 255)
        (some { name := { s := some [0, 0, 0, 0], l := 0, m := 4 },
                comment := { s := some [0, 0, 0, 0], l := 0, m := 4 },
                seq := { s := some [0, 0, 0, 0], l := 0, m := 4 },
                qual := { s := some [0, 0, 0, 0], l := 0, m := 4 } })
        (some (bytes "@ COMM" ++ [0])) 6 =
          .ok (0, some { name := { s := some bn, l := 0, m := mn },
                         comment := { s := some bc, l := 4, m := mc },
                         seq := { s := some [0, 0, 0, 0], l := 0, m := 4 },
                         qual := { s := some [0, 0, 0, 0], l := 0, m := 4 } }) ∧
        bn[0]? = some 0 ∧ bc.take 4 = bytes "COMM" ∧ bc[4]? = some 0) :=
  ⟨qes_seq_fill_header_fails_iff_null.1 65 (fun _ => 255) none (some (bytes "BAD" ++ [0])) 3
      (Or.inl rfl),
   qes_seq_fill_header_fails_iff_null.1 65 (fun _ => 255) (qes_seq_create 4) none 3
      (Or.inr rfl),
   qes_seq_fill_header_fails_iff_null.2.1 65 (fun _ => 255)
      { name := { s := some [0, 0, 0, 0], l := 0, m := 4 },
        comment := { s := some [0, 0, 0, 0], l := 0, m := 4 },
        seq := { s := some [0, 0, 0, 0], l := 0, m := 4 },
        qual := { s := some [0, 0, 0, 0], l := 0, m := 4 } }
      (bytes "x" ++ [0]) 1 0
      (some { name := { s := some [120, 0, 0, 0], l := 1, m := 4 },
              comment := { s := some [0, 0, 0, 0], l := 0, m := 4 },
              seq := { s := some [0, 0, 0, 0], l := 0, m := 4 },
              qual := { s := some [0, 0, 0, 0], l := 0, m := 4 } }) (by decide),
   qes_seq_fill_header_fails_iff_null.2.2.1 65 (fun _ => 255) _ (bytes "BAD" ++ [0]) 3 3
      (by decide) (by decide) (by decide) (by decide) (by decide) (by decide),
   qes_seq_fill_header_fails_iff_null.2.2.2.1 65 (fun _ => 255) _ [0] 0 0
      (by decide) (by decide) (by decide) (by decide) (by decide) (by decide) (by decide),
   qes_seq_fill_header_fails_iff_null.2.2.2.2 65 (fun _ => 255) _ (bytes "@ COMM" ++ [0]) 6 6
      (bytes "COMM")
      (by decide) (by decide) (by decide) (by decide) (by decide) (by decide) (by decide)⟩

/-- C16: for every record and every null-terminated line with `strlen(line) = n` (a C
object, shorter than `2 ^ 63` bytes), `qes_seq_fill_header(seq, line, 0)` reads the `n`
bytes before the terminator: on a non-null record it returns 0 and leaves, as name and
comment, the two tokens of the content of those `n` bytes, each with its length and
null-terminated; and its outcome, return value, name and comment with their lengths, is
the outcome of `qes_seq_fill_header(seq, line, n)`, also on a null record. -/
theorem qes_seq_fill_header_len_zero (fuel : Nat) (junk : Nat → Nat) (r : qes_seq)
    (line : List Nat) (n : Nat) (hf : 65 ≤ fuel) (hname : r.name.m ≤ r.name.alloc)
    (hcomment : r.comment.m ≤ r.comment.alloc) (hn : strlen line = .ok n)
    (hsz : line.length < 2 ^ 63) :
    qes_seq_fill_header fuel junk none (some line) 0 =
      qes_seq_fill_header fuel junk none (some line) n ∧
    qes_seq_fill_header fuel junk (some r) (some line) 0 =
      qes_seq_fill_header fuel junk (some r) (some line) n ∧
    ∃ bn mn bc mc,
      qes_seq_fill_header fuel junk (some r) (some line) 0 =
        .ok (0, some { name := { s := some bn,
                                 l := (header_name (strip_eol (strip_marker (line.take n)))).length,
                                 m := mn },
                       comment := { s := some bc,
                                    l := (header_comment
                                      (strip_eol (strip_marker (line.take n)))).length,
                                    m := mc },
                       seq := r.seq, qual := r.qual }) ∧
      bn.take (header_name (strip_eol (strip_marker (line.take n)))).length =
        header_name (strip_eol (strip_marker (line.take n))) ∧
      bn[(header_name (strip_eol (strip_marker (line.take n)))).length]? = some 0 ∧
      bc.take (header_comment (strip_eol (strip_marker (line.take n)))).length =
        header_comment (strip_eol (strip_marker (line.take n))) ∧
      bc[(header_comment (strip_eol (strip_marker (line.take n)))).length]? = some 0 := by
  have h0 : header_len line 0 = .ok n := by simp [header_len, hn]
  have hle : n ≤ line.length := Nat.le_of_lt (strlen_lt line n hn)
  refine ⟨rfl, ?_, ?_⟩
  · by_cases hz : n = 0
    · subst hz; rfl
    · exact fill_header_congr fuel junk (some r) line line 0 n n n h0 hle
        (header_len_pos line n (by omega)) hle rfl
  · obtain ⟨bn, mn, bc, mc, h, n1, n2, _, _, c1, c2, _, _⟩ :=
      fill_header_spec fuel junk r line 0 n hf hname hcomment h0 hle hsz
    exact ⟨bn, mn, bc, mc, h, n1, n2, c1, c2⟩

theorem qes_seq_fill_header_len_zero_witness :
    (qes_seq_fill_header 65 (fun _ => 255) none (some (bytes "@HWI_TEST COMM" ++ [10, 0])) 0 =
        qes_seq_fill_header 65 (fun _ => 255) none
          (some (bytes "@HWI_TEST COMM" ++ [10, 0])) 15 ∧
      qes_seq_fill_header 65 (fun _ => 255)
          (some { name := { s := some [0, 0, 0, 0], l := 0, m := 4 },
                  comment := { s := some [0, 0, 0, 0], l := 0, m := 4 },
                  seq := { s := some [0, 0, 0, 0], l := 0, m := 4 },
                  qual := { s := some [0, 0, 0, 0], l := 0, m := 4 } })
          (some (bytes "@HWI_TEST COMM" ++ [10, 0])) 0 =
        qes_seq_fill_header 65 (fun _ => 255)
          (some { name := { s := some [0, 0, 0, 0], l := 0, m := 4 },
                  comment := { s := some [0, 0, 0, 0], l := 0, m := 4 },
                  seq := { s := some [0, 0, 0, 0], l := 0, m := 4 },
                  qual := { s := some [0, 0, 0, 0], l := 0, m := 4 } })
          (some (bytes "@HWI_TEST COMM" ++ [10, 0])) 15 ∧
      ∃ bn mn bc mc,
        qes_seq_fill_header 65 (fun _ => 255)
            (some { name := { s := some [0, 0, 0, 0], l := 0, m := 4 },
                    comment := { s := some [0, 0, 0, 0], l := 0, m := 4 },
                    seq := { s := some [0, 0, 0, 0], l := 0, m := 4 },
                    qual := { s := some [0, 0, 0, 0], l := 0, m := 4 } })
            (some (bytes "@HWI_TEST COMM" ++ [10, 0])) 0 =
          .ok (0, some { name := { s := some bn, l := 8, m := mn },
                         comment := { s := some bc, l := 4, m := mc },
                         seq := { s := some [0, 0, 0, 0], l := 0, m := 4 },
                         qual := { s := some [0, 0, 0, 0], l := 0, m := 4 } }) ∧
        bn.take 8 = bytes "HWI_TEST" ∧ bn[8]? = some 0 ∧
        bc.take 4 = bytes "COMM" ∧ bc[4]? = some 0) ∧
    qes_seq_fill_header 65 (fun _ => 255) (qes_seq_create 4)
        (some (bytes "@HWI_TEST COMM" ++ [10, 0])) 0 =
      .ok (0, some { name := { s := some (bytes "HWI_TEST" ++ [0, 255, 255, 255, 255, 255, 255, 255]),
                               l := 8, m := 16 },
                     comment := { s := some (bytes "COMM" ++ [0, 255, 255, 255]), l := 4, m := 8 },
                     seq := { s := some [0, 0, 0, 0], l := 0, m := 4 },
                     qual := { s := some [0, 0, 0, 0], l := 0, m := 4 } }) ∧
    qes_seq_fill_header 65 (fun _ => 255) (qes_seq_create 4)
        (some (bytes "@HWI_TEST COMM" ++ [10, 0])) 15 =
      .ok (0, some { name := { s := some (bytes "HWI_TEST" ++ [0, 255, 255, 255, 255, 255, 255, 255]),
                               l := 8, m := 16 },
                     comment := { s := some (bytes "COMM" ++ [0, 255, 255, 255]), l := 4, m := 8 },
                     seq := { s := some [0, 0, 0, 0], l := 0, m := 4 },
                     qual := { s := some [0, 0, 0, 0], l := 0, m := 4 } }) :=
  ⟨qes_seq_fill_header_len_zero 65 (fun _ => 255)
    { name := { s := some [0, 0, 0, 0], l := 0, m := 4 },
      comment := { s := some [0, 0, 0, 0], l := 0, m := 4 },
      seq := { s := some [0, 0, 0, 0], l := 0, m := 4 },
      qual := { s := some [0, 0, 0, 0], l := 0, m := 4 } }
    (bytes "@HWI_TEST COMM" ++ [10, 0]) 15 (by decide) (by decide) (by decide) (by decide)
    (by decide),
   by decide, by decide⟩

/-! ### The field fillers -/

/-- Reading back, as a null-terminated text, a storage that starts with a text free of zero
bytes followed by the terminator gives the length of that text. -/
theorem strlen_of_text (t : List Nat) (h0 : 0 ∉ t) :
    ∀ b : List Nat, b.take t.length = t → b[t.length]? = some 0 → strlen b = .ok t.length := by
  induction t with
  | nil =>
    intro b _ hb
    cases b with
    | nil => simp at hb
    | cons a b =>
      have : a = 0 := by simpa using hb
      simp [strlen, this]
  | cons c t ih =>
    intro b ht hb
    have hc : c ≠ 0 := fun h => h0 (by simp [h])
    have h0' : 0 ∉ t := fun h => h0 (by simp [h])
    cases b with
    | nil => simp at ht
    | cons a b =>
      simp only [List.length_cons, List.take_succ_cons, List.cons.injEq] at ht
      obtain ⟨rfl, ht⟩ := ht
      have hb' : b[t.length]? = some 0 := by simpa using hb
      simp [strlen, hc, ih h0' b ht hb', Except.map]

/-- What a successful buffer fill gives a field filler to report. -/
theorem delegate_ok (old st : qes_str) : delegate old (1, some st) = (0, st) := rfl

/-- The buffer fill behind every field filler, on a text `t` of length at least 1. -/
theorem fill_text (fuel : Nat) (junk : Nat → Nat) (st : qes_str) (t rest : List Nat)
    (hf : 65 ≤ fuel) (hwf : st.m ≤ st.alloc) (h1 : 1 ≤ t.length)
    (hsz : t.length + 1 ≤ 2 ^ 63) (h0 : 0 ∉ t) :
    ∃ b m, qes_str_fill_charptr fuel junk (some st) (some (t ++ rest)) t.length =
        .ok (1, some { s := some b, l := t.length, m := m }) ∧
      b.take t.length = t ∧ b[t.length]? = some 0 ∧ strlen b = .ok t.length ∧
      t.length ≤ m := by
  obtain ⟨b, m, h, ht, hg, hm, _⟩ :=
    fill_spec fuel junk st (t ++ rest) t.length t.length hf hwf (fill_len_pos _ _ h1) hsz
      (by simp)
  have ht' : b.take t.length = t := by rw [ht, List.take_left' rfl]
  exact ⟨b, m, h, ht', hg, strlen_of_text t h0 b ht' hg, by omega⟩

/-- C17: for each of the four fillers, every record whose target field has a capacity not
overstating its allocation, and every text `t` (free of zero bytes, shorter than the largest
C object) with `len = |t| ≥ 1`, the call returns 0 and afterwards the field reads back
exactly `t`, null-terminated, its length is `len`, its capacity is `≥ len`, and the other
three fields are unchanged. -/
theorem qes_seq_fill_field_roundtrip (fuel : Nat) (junk : Nat → Nat) (r : qes_seq)
    (t rest : List Nat) (hf : 65 ≤ fuel) (h1 : 1 ≤ t.length) (hsz : t.length + 1 ≤ 2 ^ 63)
    (h0 : 0 ∉ t) :
    (r.name.m ≤ r.name.alloc →
      ∃ b m, qes_seq_fill_name fuel junk (some r) (some (t ++ rest)) t.length =
          .ok (0, some { r with name := { s := some b, l := t.length, m := m } }) ∧
        b.take t.length = t ∧ b[t.length]? = some 0 ∧ strlen b = .ok t.length ∧
        t.length ≤ m) ∧
    (r.comment.m ≤ r.comment.alloc →
      ∃ b m, qes_seq_fill_comment fuel junk (some r) (some (t ++ rest)) t.length =
          .ok (0, some { r with comment := { s := some b, l := t.length, m := m } }) ∧
        b.take t.length = t ∧ b[t.length]? = some 0 ∧ strlen b = .ok t.length ∧
        t.length ≤ m) ∧
    (r.seq.m ≤ r.seq.alloc →
      ∃ b m, qes_seq_fill_seq fuel junk (some r) (some (t ++ rest)) t.length =
          .ok (0, some { r with seq := { s := some b, l := t.length, m := m } }) ∧
        b.take t.length = t ∧ b[t.length]? = some 0 ∧ strlen b = .ok t.length ∧
        t.length ≤ m) ∧
    (r.qual.m ≤ r.qual.alloc →
      ∃ b m, qes_seq_fill_qual fuel junk (some r) (some (t ++ rest)) t.length =
          .ok (0, some { r with qual := { s := some b, l := t.length, m := m } }) ∧
        b.take t.length = t ∧ b[t.length]? = some 0 ∧ strlen b = .ok t.length ∧
        t.length ≤ m) := by
  have hne : t.length ≠ 0 := by omega
  refine ⟨?_, ?_, ?_, ?_⟩
  · intro hwf
    obtain ⟨b, m, h, p⟩ := fill_text fuel junk r.name t rest hf hwf h1 hsz h0
    refine ⟨b, m, ?_, p⟩
    simp only [qes_seq_fill_name, hne, if_false, h, bind, Except.bind, pure, Except.pure,
      delegate_ok]
  · intro hwf
    obtain ⟨b, m, h, p⟩ := fill_text fuel junk r.comment t rest hf hwf h1 hsz h0
    refine ⟨b, m, ?_, p⟩
    simp only [qes_seq_fill_comment, hne, if_false, h, bind, Except.bind, pure, Except.pure,
      delegate_ok]
  · intro hwf
    obtain ⟨b, m, h, p⟩ := fill_text fuel junk r.seq t rest hf hwf h1 hsz h0
    refine ⟨b, m, ?_, p⟩
    simp only [qes_seq_fill_seq, hne, if_false, h, bind, Except.bind, pure, Except.pure,
      delegate_ok]
  · intro hwf
    obtain ⟨b, m, h, p⟩ := fill_text fuel junk r.qual t rest hf hwf h1 hsz h0
    refine ⟨b, m, ?_, p⟩
    simp only [qes_seq_fill_qual, hne, if_false, h, bind, Except.bind, pure, Except.pure,
      delegate_ok]

theorem qes_seq_fill_field_roundtrip_witness :
    (∃ b m, qes_seq_fill_name 65 (fun _ => 255)
        (some { name := { s := some [0, 0, 0, 0], l := 0, m := 4 },
                comment := { s := some [0, 0, 0, 0], l := 0, m := 4 },
                seq := { s := some [0, 0, 0, 0], l := 0, m := 4 },
                qual := { s := some [0, 0, 0, 0], l := 0, m := 4 } })
        (some (bytes "HWI_TEST" ++ [0])) 8 =
          .ok (0, some { name := { s := some b, l := 8, m := m },
                         comment := { s := some [0, 0, 0, 0], l := 0, m := 4 },
                         seq := { s := some [0, 0, 0, 0], l := 0, m := 4 },
                         qual := { s := some [0, 0, 0, 0], l := 0, m := 4 } }) ∧
        b.take 8 = bytes "HWI_TEST" ∧ b[8]? = some 0 ∧ strlen b = .ok 8 ∧ 8 ≤ m) ∧
    (∃ b m, qes_seq_fill_comment 65 (fun _ => 255)
        (some { name := { s := some [0, 0, 0, 0], l := 0, m := 4 },
                comment := { s := some [0, 0, 0, 0], l := 0, m := 4 },
                seq := { s := some [0, 0, 0, 0], l := 0, m := 4 },
                qual := { s := some [0, 0, 0, 0], l := 0, m := 4 } })
        (some (bytes "abc 123 comment" ++ [0])) 15 =
          .ok (0, some { name := { s := some [0, 0, 0, 0], l := 0, m := 4 },
                         comment := { s := some b, l := 15, m := m },
                         seq := { s := some [0, 0, 0, 0], l := 0, m := 4 },
                         qual := { s := some [0, 0, 0, 0], l := 0, m := 4 } }) ∧
        b.take 15 = bytes "abc 123 comment" ∧ b[15]? = some 0 ∧ strlen b = .ok 15 ∧ 15 ≤ m) ∧
    (∃ b m, qes_seq_fill_seq 65 (fun _ => 255)
        (some { name := { s := some [0, 0, 0, 0], l := 0, m := 4 },
                comment := { s := some [0, 0, 0, 0], l := 0, m := 4 },
                seq := { s := some [0, 0, 0, 0], l := 0, m := 4 },
                qual := { s := some [0, 0, 0, 0], l := 0, m := 4 } })
        (some (bytes "ACTG" ++ [0])) 4 =
          .ok (0, some { name := { s := some [0, 0, 0, 0], l := 0, m := 4 },
                         comment := { s := some [0, 0, 0, 0], l := 0, m := 4 },
                         seq := { s := some b, l := 4, m := m },
                         qual := { s := some [0, 0, 0, 0], l := 0, m := 4 } }) ∧
        b.take 4 = bytes "ACTG" ∧ b[4]? = some 0 ∧ strlen b = .ok 4 ∧ 4 ≤ m) ∧
    (∃ b m, qes_seq_fill_qual 65 (fun _ => 255)
        (some { name := { s := some [0, 0, 0, 0], l := 0, m := 4 },
                comment := { s := some [0, 0, 0, 0], l := 0, m := 4 },
                seq := { s := some [0, 0, 0, 0], l := 0, m := 4 },
                qual := { s := some [0, 0, 0, 0], l := 0, m := 4 } })
        (some (bytes "IIII" ++ [0])) 4 =
          .ok (0, some { name := { s := some [0, 0, 0, 0], l := 0, m := 4 },
                         comment := { s := some [0, 0, 0, 0], l := 0, m := 4 },
                         seq := { s := some [0, 0, 0, 0], l := 0, m := 4 },
                         qual := { s := some b, l := 4, m := m } }) ∧
        b.take 4 = bytes "IIII" ∧ b[4]? = some 0 ∧ strlen b = .ok 4 ∧ 4 ≤ m) :=
  ⟨(qes_seq_fill_field_roundtrip 65 (fun _ => 255) _ (bytes "HWI_TEST") [0] (by decide)
      (by decide) (by decide) (by decide)).1 (by decide),
   (qes_seq_fill_field_roundtrip 65 (fun _ => 255) _ (bytes "abc 123 comment") [0] (by decide)
      (by decide) (by decide) (by decide)).2.1 (by decide),
   (qes_seq_fill_field_roundtrip 65 (fun _ => 255) _ (bytes "ACTG") [0] (by decide)
      (by decide) (by decide) (by decide)).2.2.1 (by decide),
   (qes_seq_fill_field_roundtrip 65 (fun _ => 255) _ (bytes "IIII") [0] (by decide)
      (by decide) (by decide) (by decide)).2.2.2 (by decide)⟩

/-- A field filler that passes its guard and runs to completion returns 0. -/
theorem delegate_ret (fuel : Nat) (junk : Nat → Nat) (old : qes_str) (t : List Nat)
    (len : Nat) (res : Int × Option qes_str)
    (h : qes_str_fill_charptr fuel junk (some old) (some t) len = .ok res) :
    (delegate old res).1 = 0 := by
  have hr : res.1 = 1 := fill_ret fuel junk old t len res.1 res.2 h
  simp [delegate, hr]

/-- C18: each of `qes_seq_fill_name`, `_comment`, `_seq`, `_qual` returns 1 when the record is
null, when the source text is null, or when the given length is 0 (the fillers never infer
the length from the terminator), and the record, when non-null, is left unchanged; every
other completed call returns 0, the opposite of the 1/0 of `qes_str_fill_charptr`. -/
theorem qes_seq_fill_field_fail :
    (∀ fuel junk seq text len, (seq = none ∨ text = none ∨ len = 0) →
      qes_seq_fill_name fuel junk seq text len = .ok (1, seq) ∧
      qes_seq_fill_comment fuel junk seq text len = .ok (1, seq) ∧
      qes_seq_fill_seq fuel junk seq text len = .ok (1, seq) ∧
      qes_seq_fill_qual fuel junk seq text len = .ok (1, seq)) ∧
    (∀ fuel junk r t len ret r', len ≠ 0 →
      (qes_seq_fill_name fuel junk (some r) (some t) len = .ok (ret, r') → ret = 0) ∧
      (qes_seq_fill_comment fuel junk (some r) (some t) len = .ok (ret, r') → ret = 0) ∧
      (qes_seq_fill_seq fuel junk (some r) (some t) len = .ok (ret, r') → ret = 0) ∧
      (qes_seq_fill_qual fuel junk (some r) (some t) len = .ok (ret, r') → ret = 0)) := by
  constructor
  · intro fuel junk seq text len h
    cases seq with
    | none => exact ⟨rfl, rfl, rfl, rfl⟩
    | some r =>
      cases text with
      | none => exact ⟨rfl, rfl, rfl, rfl⟩
      | some t =>
        have hl : len = 0 := by simpa using h
        subst hl
        exact ⟨rfl, rfl, rfl, rfl⟩
  · intro fuel junk r t len ret r' hne
    refine ⟨?_, ?_, ?_, ?_⟩
    · intro h
      simp only [qes_seq_fill_name, hne, if_false, bind, Except.bind, pure, Except.pure] at h
      cases hres : qes_str_fill_charptr fuel junk (some r.name) (some t) len with
      | error x => rw [hres] at h; cases h
      | ok res =>
        rw [hres] at h
        have := delegate_ret fuel junk r.name t len res hres
        cases h; exact this
    · intro h
      simp only [qes_seq_fill_comment, hne, if_false, bind, Except.bind, pure, Except.pure] at h
      cases hres : qes_str_fill_charptr fuel junk (some r.comment) (some t) len with
      | error x => rw [hres] at h; cases h
      | ok res =>
        rw [hres] at h
        have := delegate_ret fuel junk r.comment t len res hres
        cases h; exact this
    · intro h
      simp only [qes_seq_fill_seq, hne, if_false, bind, Except.bind, pure, Except.pure] at h
      cases hres : qes_str_fill_charptr fuel junk (some r.seq) (some t) len with
      | error x => rw [hres] at h; cases h
      | ok res =>
        rw [hres] at h
        have := delegate_ret fuel junk r.seq t len res hres
        cases h; exact this
    · intro h
      simp only [qes_seq_fill_qual, hne, if_false, bind, Except.bind, pure, Except.pure] at h
      cases hres : qes_str_fill_charptr fuel junk (some r.qual) (some t) len with
      | error x => rw [hres] at h; cases h
      | ok res =>
        rw [hres] at h
        have := delegate_ret fuel junk r.qual t len res hres
        cases h; exact this

theorem qes_seq_fill_field_fail_witness :
    (qes_seq_fill_name 65 (fun _ => 255) (qes_seq_create 4) (some (bytes "BAD" ++ [0])) 0 =
        .ok (1, qes_seq_create 4) ∧
      qes_seq_fill_comment 65 (fun _ => 255) (qes_seq_create 4) (some (bytes "BAD" ++ [0])) 0 =
        .ok (1, qes_seq_create 4) ∧
      qes_seq_fill_seq 65 (fun _ => 255) (qes_seq_create 4) (some (bytes "BAD" ++ [0])) 0 =
        .ok (1, qes_seq_create 4) ∧
      qes_seq_fill_qual 65 (fun _ => 255) (qes_seq_create 4) (some (bytes "BAD" ++ [0])) 0 =
        .ok (1, qes_seq_create 4)) ∧
    (qes_seq_fill_name 65 (fun _ => 255) (qes_seq_create 4) none 1 = .ok (1, qes_seq_create 4) ∧
      qes_seq_fill_comment 65 (fun _ => 255) (qes_seq_create 4) none 1 =
        .ok (1, qes_seq_create 4) ∧
      qes_seq_fill_seq 65 (fun _ => 255) (qes_seq_create 4) none 1 = .ok (1, qes_seq_create 4) ∧
      qes_seq_fill_qual 65 (fun _ => 255) (qes_seq_create 4) none 1 =
        .ok (1, qes_seq_create 4)) ∧
    (qes_seq_fill_name 65 (fun _ => 255) none (some (bytes "BAD" ++ [0])) 3 = .ok (1, none) ∧
      qes_seq_fill_comment 65 (fun _ => 255) none (some (bytes "BAD" ++ [0])) 3 = .ok (1, none) ∧
      qes_seq_fill_seq 65 (fun _ => 255) none (some (bytes "BAD" ++ [0])) 3 = .ok (1, none) ∧
      qes_seq_fill_qual 65 (fun _ => 255) none (some (bytes "BAD" ++ [0])) 3 = .ok (1, none)) ∧
    qes_seq_create 4 =
      some { name := { s := some [0, 0, 0, 0], l := 0, m := 4 },
             comment := { s := some [0, 0, 0, 0], l := 0, m := 4 },
             seq := { s := some [0, 0, 0, 0], l := 0, m := 4 },
             qual := { s := some [0, 0, 0, 0], l := 0, m := 4 } } ∧
    (0 : Int) = 0 :=
  ⟨qes_seq_fill_field_fail.1 65 (fun _ => 255) (qes_seq_create 4) (some (bytes "BAD" ++ [0])) 0
      (Or.inr (Or.inr rfl)),
   qes_seq_fill_field_fail.1 65 (fun _ => 255) (qes_seq_create 4) none 1 (Or.inr (Or.inl rfl)),
   qes_seq_fill_field_fail.1 65 (fun _ => 255) none (some (bytes "BAD" ++ [0])) 3 (Or.inl rfl),
   by decide,
   (qes_seq_fill_field_fail.2 65 (fun _ => 255)
      { name := { s := some [0, 0, 0, 0], l := 0, m := 4 },
        comment := { s := some [0, 0, 0, 0], l := 0, m := 4 },
        seq := { s := some [0, 0, 0, 0], l := 0, m := 4 },
        qual := { s := some [0, 0, 0, 0], l := 0, m := 4 } }
      (bytes "BAD" ++ [0]) 3 0
      (some { name := { s := some [66, 65, 68, 0], l := 3, m := 4 },
              comment := { s := some [0, 0, 0, 0], l := 0, m := 4 },
              seq := { s := some [0, 0, 0, 0], l := 0, m := 4 },
              qual := { s := some [0, 0, 0, 0], l := 0, m := 4 } })
      (by decide)).1 (by decide)⟩

/-! ### Validity predicates and constructors -/

/-- C19: for every record state, `qes_seq_ok` holds iff name, comment, seq and qual are all
valid buffers (`qes_str_ok`); `qes_seq_ok_no_comment` iff name, seq and qual are valid;
`qes_seq_ok_no_qual` iff name, comment and seq are valid; `qes_seq_ok_no_comment_or_qual`
iff name and seq are valid; all four are false for a null record. Hence destroying the
storage of a required field (`qes_str_destroy_cp`, which leaves the absent buffer) makes the
predicate false, and destroying an ignored field leaves its value as it was. -/
theorem qes_seq_ok_spec :
    (∀ r, (qes_seq_ok (some r) = true ↔
        qes_str_ok (some r.name) = true ∧ qes_str_ok (some r.comment) = true ∧
        qes_str_ok (some r.seq) = true ∧ qes_str_ok (some r.qual) = true) ∧
      (qes_seq_ok_no_comment (some r) = true ↔
        qes_str_ok (some r.name) = true ∧ qes_str_ok (some r.seq) = true ∧
        qes_str_ok (some r.qual) = true) ∧
      (qes_seq_ok_no_qual (some r) = true ↔
        qes_str_ok (some r.name) = true ∧ qes_str_ok (some r.comment) = true ∧
        qes_str_ok (some r.seq) = true) ∧
      (qes_seq_ok_no_comment_or_qual (some r) = true ↔
        qes_str_ok (some r.name) = true ∧ qes_str_ok (some r.seq) = true)) ∧
    (qes_seq_ok none = false ∧ qes_seq_ok_no_comment none = false ∧
      qes_seq_ok_no_qual none = false ∧ qes_seq_ok_no_comment_or_qual none = false) ∧
    (∀ st, qes_str_destroy_cp (some st) = some qes_str.absent) ∧
    (∀ r : qes_seq, qes_seq_ok (some { r with name := qes_str.absent }) = false ∧
      qes_seq_ok (some { r with comment := qes_str.absent }) = false ∧
      qes_seq_ok (some { r with seq := qes_str.absent }) = false ∧
      qes_seq_ok (some { r with qual := qes_str.absent }) = false) ∧
    (∀ r : qes_seq, qes_seq_ok_no_comment (some { r with name := qes_str.absent }) = false ∧
      qes_seq_ok_no_comment (some { r with comment := qes_str.absent }) =
        qes_seq_ok_no_comment (some r) ∧
      qes_seq_ok_no_comment (some { r with seq := qes_str.absent }) = false ∧
      qes_seq_ok_no_comment (some { r with qual := qes_str.absent }) = false) ∧
    (∀ r : qes_seq, qes_seq_ok_no_qual (some { r with name := qes_str.absent }) = false ∧
      qes_seq_ok_no_qual (some { r with comment := qes_str.absent }) = false ∧
      qes_seq_ok_no_qual (some { r with seq := qes_str.absent }) = false ∧
      qes_seq_ok_no_qual (some { r with qual := qes_str.absent }) =
        qes_seq_ok_no_qual (some r)) ∧
    (∀ r : qes_seq, qes_seq_ok_no_comment_or_qual (some { r with name := qes_str.absent }) = false ∧
      qes_seq_ok_no_comment_or_qual (some { r with comment := qes_str.absent }) =
        qes_seq_ok_no_comment_or_qual (some r) ∧
      qes_seq_ok_no_comment_or_qual (some { r with seq := qes_str.absent }) = false ∧
      qes_seq_ok_no_comment_or_qual (some { r with qual := qes_str.absent }) =
        qes_seq_ok_no_comment_or_qual (some r)) := by
  have ha : qes_str_ok (some qes_str.absent) = false := rfl
  refine ⟨?_, ⟨rfl, rfl, rfl, rfl⟩, fun _ => rfl, ?_, ?_, ?_, ?_⟩
  · intro r
    simp [qes_seq_ok, qes_seq_ok_no_comment, qes_seq_ok_no_qual,
      qes_seq_ok_no_comment_or_qual, and_assoc]
  · intro r
    simp [qes_seq_ok, ha]
  · intro r
    simp [qes_seq_ok_no_comment, ha]
  · intro r
    simp [qes_seq_ok_no_qual, ha]
  · intro r
    simp [qes_seq_ok_no_comment_or_qual, ha]

theorem field_init_eq (cap : Nat) :
    field_init cap = { s := some (List.replicate cap 0), l := 0, m := cap } := by
  simp [field_init, qes_str_init, qes_calloc]

theorem field_init_ok (cap : Nat) (h : 0 < cap) : qes_str_ok (some (field_init cap)) = true := by
  simp [field_init_eq, qes_str_ok, h]

/-- C20: with a positive initial capacity, `qes_seq_create` returns a record whose name,
comment, seq and qual are all valid with length 0 and capacity `> 0`;
`qes_seq_create_no_qual` returns one with name, comment and seq valid (length 0, capacity
`> 0`) and qual absent (null storage, capacity 0, length 0);
`qes_seq_create_no_qual_or_comment` returns one with name and seq valid and both comment and
qual absent. Consequently the full record satisfies `qes_seq_ok`, the no-qual record
satisfies `qes_seq_ok_no_qual` but not `qes_seq_ok`, and the no-qual-or-comment record
satisfies `qes_seq_ok_no_comment_or_qual` but none of the other three predicates. -/
theorem qes_seq_create_spec (cap : Nat) (hcap : 0 < cap) :
    (∃ r, qes_seq_create cap = some r ∧
      qes_str_ok (some r.name) = true ∧ r.name.l = 0 ∧ 0 < r.name.m ∧
      qes_str_ok (some r.comment) = true ∧ r.comment.l = 0 ∧ 0 < r.comment.m ∧
      qes_str_ok (some r.seq) = true ∧ r.seq.l = 0 ∧ 0 < r.seq.m ∧
      qes_str_ok (some r.qual) = true ∧ r.qual.l = 0 ∧ 0 < r.qual.m) ∧
    (∃ r, qes_seq_create_no_qual cap = some r ∧
      qes_str_ok (some r.name) = true ∧ r.name.l = 0 ∧ 0 < r.name.m ∧
      qes_str_ok (some r.comment) = true ∧ r.comment.l = 0 ∧ 0 < r.comment.m ∧
      qes_str_ok (some r.seq) = true ∧ r.seq.l = 0 ∧ 0 < r.seq.m ∧
      r.qual.s = none ∧ r.qual.m = 0 ∧ r.qual.l = 0) ∧
    (∃ r, qes_seq_create_no_qual_or_comment cap = some r ∧
      qes_str_ok (some r.name) = true ∧ r.name.l = 0 ∧ 0 < r.name.m ∧
      r.comment.s = none ∧ r.comment.m = 0 ∧ r.comment.l = 0 ∧
      qes_str_ok (some r.seq) = true ∧ r.seq.l = 0 ∧ 0 < r.seq.m ∧
      r.qual.s = none ∧ r.qual.m = 0 ∧ r.qual.l = 0) ∧
    qes_seq_ok (qes_seq_create cap) = true ∧
    (qes_seq_ok_no_qual (qes_seq_create_no_qual cap) = true ∧
      qes_seq_ok (qes_seq_create_no_qual cap) = false) ∧
    (qes_seq_ok_no_comment_or_qual (qes_seq_create_no_qual_or_comment cap) = true ∧
      qes_seq_ok (qes_seq_create_no_qual_or_comment cap) = false ∧
      qes_seq_ok_no_comment (qes_seq_create_no_qual_or_comment cap) = false ∧
      qes_seq_ok_no_qual (qes_seq_create_no_qual_or_comment cap) = false) := by
  have hok := field_init_ok cap hcap
  have hl : (field_init cap).l = 0 := by rw [field_init_eq]
  have hm : 0 < (field_init cap).m := by rw [field_init_eq]; exact hcap
  have ha : qes_str_ok (some qes_str.absent) = false := rfl
  refine ⟨⟨_, rfl, hok, hl, hm, hok, hl, hm, hok, hl, hm, hok, hl, hm⟩,
    ⟨_, rfl, hok, hl, hm, hok, hl, hm, hok, hl, hm, rfl, rfl, rfl⟩,
    ⟨_, rfl, hok, hl, hm, rfl, rfl, rfl, hok, hl, hm, rfl, rfl, rfl⟩, ?_, ⟨?_, ?_⟩,
    ⟨?_, ?_, ?_, ?_⟩⟩
  · simp [qes_seq_ok, qes_seq_create, hok]
  · simp [qes_seq_ok_no_qual, qes_seq_create_no_qual, hok]
  · simp [qes_seq_ok, qes_seq_create_no_qual, ha]
  · simp [qes_seq_ok_no_comment_or_qual, qes_seq_create_no_qual_or_comment, hok]
  · simp [qes_seq_ok, qes_seq_create_no_qual_or_comment, ha]
  · simp [qes_seq_ok_no_comment, qes_seq_create_no_qual_or_comment, ha]
  · simp [qes_seq_ok_no_qual, qes_seq_create_no_qual_or_comment, ha]

theorem qes_seq_create_spec_witness :
    (∃ r, qes_seq_create 128 = some r ∧
      qes_str_ok (some r.name) = true ∧ r.name.l = 0 ∧ 0 < r.name.m ∧
      qes_str_ok (some r.comment) = true ∧ r.comment.l = 0 ∧ 0 < r.comment.m ∧
      qes_str_ok (some r.seq) = true ∧ r.seq.l = 0 ∧ 0 < r.seq.m ∧
      qes_str_ok (some r.qual) = true ∧ r.qual.l = 0 ∧ 0 < r.qual.m) ∧
    (qes_seq_ok_no_qual (qes_seq_create_no_qual 128) = true ∧
      qes_seq_ok (qes_seq_create_no_qual 128) = false) ∧
    (qes_seq_ok_no_comment_or_qual (qes_seq_create_no_qual_or_comment 128) = true ∧
      qes_seq_ok (qes_seq_create_no_qual_or_comment 128) = false ∧
      qes_seq_ok_no_comment (qes_seq_create_no_qual_or_comment 128) = false ∧
      qes_seq_ok_no_qual (qes_seq_create_no_qual_or_comment 128) = false) :=
  ⟨(qes_seq_create_spec 128 (by decide)).1,
   (qes_seq_create_spec 128 (by decide)).2.2.2.2.1,
   (qes_seq_create_spec 128 (by decide)).2.2.2.2.2⟩

/-! ### The rounding functions and the growth loop, in full -/

/-- Every value of the word below `2 ^ (w + 1)` is 0 or lies in some `[2 ^ k, 2 ^ (k + 1))`
with `k ≤ w`. -/
theorem log_range (x w : Nat) (hx : x ≠ 0) (hw : x < 2 ^ (w + 1)) :
    Nat.log 2 x ≤ w ∧ 2 ^ Nat.log 2 x ≤ x ∧ x < 2 ^ (Nat.log 2 x + 1) := by
  refine ⟨?_, Nat.pow_log_le_self 2 hx, Nat.lt_pow_succ_log_self (by decide) x⟩
  have := Nat.log_lt_of_lt_pow hx hw
  omega

/-- A power of two above `x` is at least the power that follows the top bit of `x`. -/
theorem pow_succ_log_le (x j : Nat) (hx : x ≠ 0) (hj : x < 2 ^ j) :
    2 ^ (Nat.log 2 x + 1) ≤ 2 ^ j :=
  Nat.pow_le_pow_right (by decide) (Nat.log_lt_of_lt_pow hx hj)

/-- C22: over 64-bit arithmetic, for every `sz < 2 ^ 63`, `kmroundupz(sz)` is the smallest
power of two strictly greater than `sz` (0 to 1, 1 to 2, 3 to 4, 4 to 8, 5 to 8), and for
every `sz` with `2 ^ 63 ≤ sz < 2 ^ 64` the result wraps to 0; `kmroundup64` computes the same
function, and `kmroundup32` the 32-bit analogue (the smallest power of two `> u` for
`u < 2 ^ 31`, 0 for `2 ^ 31 ≤ u < 2 ^ 32`). -/
theorem kmroundup_reference :
    (∀ sz, sz < 2 ^ 63 →
      ∃ k, kmroundupz sz = 2 ^ k ∧ sz < kmroundupz sz ∧ ∀ j, sz < 2 ^ j → 2 ^ k ≤ 2 ^ j) ∧
    (∀ sz, 2 ^ 63 ≤ sz → sz < 2 ^ 64 → kmroundupz sz = 0) ∧
    (kmroundupz 0 = 1 ∧ kmroundupz 1 = 2 ∧ kmroundupz 3 = 4 ∧ kmroundupz 4 = 8 ∧
      kmroundupz 5 = 8) ∧
    (∀ sz, kmroundup64 sz = kmroundupz sz) ∧
    (∀ u, u < 2 ^ 31 →
      ∃ k, kmroundup32 u = 2 ^ k ∧ u < kmroundup32 u ∧ ∀ j, u < 2 ^ j → 2 ^ k ≤ 2 ^ j) ∧
    (∀ u, 2 ^ 31 ≤ u → u < 2 ^ 32 → kmroundup32 u = 0) := by
  refine ⟨?_, ?_, by decide, kmroundup64_eq_kmroundupz, ?_, ?_⟩
  · intro sz hsz
    by_cases h0 : sz = 0
    · subst h0
      exact ⟨0, by decide, by decide, fun j _ => Nat.pow_le_pow_right (by decide) (Nat.zero_le j)⟩
    · obtain ⟨hk, hlo, hhi⟩ := log_range sz 62 h0 hsz
      have hv : kmroundupz sz = 2 ^ (Nat.log 2 sz + 1) := by
        rw [kmroundupz_range sz _ (by omega) hlo hhi]
        apply Nat.mod_eq_of_lt
        have : 2 ^ (Nat.log 2 sz + 1) ≤ 2 ^ 63 := Nat.pow_le_pow_right (by decide) (by omega)
        unfold SIZE_MOD
        omega
      exact ⟨_, hv, by rw [hv]; exact hhi, fun j hj => pow_succ_log_le sz j h0 hj⟩
  · intro sz hlo hhi
    rw [kmroundupz_range sz 63 (by decide) hlo hhi]
    decide
  · intro u hu
    by_cases h0 : u = 0
    · subst h0
      exact ⟨0, by decide, by decide, fun j _ => Nat.pow_le_pow_right (by decide) (Nat.zero_le j)⟩
    · obtain ⟨hk, hlo, hhi⟩ := log_range u 30 h0 hu
      have hv : kmroundup32 u = 2 ^ (Nat.log 2 u + 1) := by
        rw [kmroundup32_range u _ (by omega) hlo hhi]
        apply Nat.mod_eq_of_lt
        have : 2 ^ (Nat.log 2 u + 1) ≤ 2 ^ 31 := Nat.pow_le_pow_right (by decide) (by omega)
        unfold U32_MOD
        omega
      exact ⟨_, hv, by rw [hv]; exact hhi, fun j hj => pow_succ_log_le u j h0 hj⟩
  · intro u hlo hhi
    rw [kmroundup32_range u 31 (by decide) hlo hhi]
    decide

theorem kmroundup_reference_witness :
    (∃ k, kmroundupz 1000 = 2 ^ k ∧ 1000 < kmroundupz 1000 ∧
      ∀ j, 1000 < 2 ^ j → 2 ^ k ≤ 2 ^ j) ∧
    kmroundupz (2 ^ 63 + 5) = 0 ∧
    (∃ k, kmroundup32 1000 = 2 ^ k ∧ 1000 < kmroundup32 1000 ∧
      ∀ j, 1000 < 2 ^ j → 2 ^ k ≤ 2 ^ j) ∧
    kmroundup32 (2 ^ 31) = 0 :=
  ⟨kmroundup_reference.1 1000 (by decide),
   kmroundup_reference.2.1 (2 ^ 63 + 5) (by decide) (by decide),
   kmroundup_reference.2.2.2.2.1 1000 (by decide),
   kmroundup_reference.2.2.2.2.2 (2 ^ 31) (by decide) (by decide)⟩

/-- The rounding function never returns more than `2 ^ 63`. -/
theorem qes_roundupz_le (x : Nat) (hx : x < 2 ^ 64) : qes_roundupz x ≤ 2 ^ 63 := by
  unfold qes_roundupz
  by_cases h0 : x = 0
  · subst h0; decide
  · obtain ⟨hk, hlo, hhi⟩ := log_range x 63 h0 hx
    rw [kmroundupz_range x _ (by omega) hlo hhi]
    by_cases h63 : Nat.log 2 x = 63
    · rw [h63]; decide
    · have : 2 ^ (Nat.log 2 x + 1) ≤ 2 ^ 63 := Nat.pow_le_pow_right (by decide) (by omega)
      exact Nat.le_trans (Nat.mod_le _ _) this

/-- Above `2 ^ 63` the loop never ends: every capacity it reaches is below `need`. -/
theorem grow_diverges (need : Nat) (hneed : 2 ^ 63 < need) :
    ∀ fuel m, m < need → m < 2 ^ 64 → grow fuel m need = .error .fuel := by
  intro fuel
  induction fuel with
  | zero => intro m _ _; rfl
  | succ f ih =>
    intro m hm hm64
    have hr := qes_roundupz_le m hm64
    simp only [grow, hm, if_true]
    exact ih _ (by omega) (by omega)

/-- The capacity the loop ends on is at least `need`. -/
theorem grow_ge (need : Nat) : ∀ fuel m r, grow fuel m need = .ok r → need ≤ r := by
  intro fuel
  induction fuel with
  | zero => intro m r h; cases h
  | succ f ih =>
    intro m r h
    by_cases hm : m < need
    · simp only [grow, hm, if_true] at h
      exact ih _ r h
    · simp only [grow, hm, if_false, Except.ok.injEq] at h
      omega

/-- C23: with `need = (len + 1) mod 2 ^ 64` and any starting capacity `m < need`, the loop
`while (m < need) m = roundupz(m)` of `qes_str_fill_charptr` terminates if and only if
`need ≤ 2 ^ 63`, and then within 64 iterations (65 evaluations of its condition, a number
that is reached); for `need > 2 ^ 63` the capacity never reaches `need`, whatever the number
of iterations. -/
theorem grow_terminates_iff (m need : Nat) (hm : m < need) (hneed : need < 2 ^ 64) :
    ((∃ fuel r, grow fuel m need = .ok r) ↔ need ≤ 2 ^ 63) ∧
    (need ≤ 2 ^ 63 → ∃ r, grow 65 m need = .ok r ∧ need ≤ r) ∧
    (2 ^ 63 < need → ∀ fuel, grow fuel m need = .error .fuel) ∧
    grow 64 0 (2 ^ 63) = .error .fuel := by
  have hyes : need ≤ 2 ^ 63 → ∃ r, grow 65 m need = .ok r ∧ need ≤ r := by
    intro h
    obtain ⟨hK, hle, hmin⟩ := clog_facts need h
    exact ⟨_, grow_spec 65 m need _ (le_refl _) hm hK hle hmin, hle⟩
  have hno : 2 ^ 63 < need → ∀ fuel, grow fuel m need = .error .fuel :=
    fun h fuel => grow_diverges need h fuel m hm (by omega)
  refine ⟨⟨?_, ?_⟩, hyes, hno, by decide⟩
  · rintro ⟨fuel, r, h⟩
    by_contra hc
    rw [hno (by omega) fuel] at h
    cases h
  · intro h
    obtain ⟨r, hr, _⟩ := hyes h
    exact ⟨65, r, hr⟩

theorem grow_terminates_iff_witness :
    ((∃ fuel r, grow fuel 4 5 = .ok r) ↔ 5 ≤ 2 ^ 63) ∧
    (∃ r, grow 65 0 (2 ^ 63) = .ok r ∧ 2 ^ 63 ≤ r) ∧
    (∀ fuel, grow fuel 128 (2 ^ 63 + 1) = .error .fuel) :=
  ⟨(grow_terminates_iff 4 5 (by decide) (by decide)).1,
   (grow_terminates_iff 0 (2 ^ 63) (by decide) (by decide)).2.1 (by decide),
   (grow_terminates_iff 128 (2 ^ 63 + 1) (by decide) (by decide)).2.2.1 (by decide)⟩

/-! ### The buffer as a text -/

theorem well_formed_iff (st : qes_str) :
    st.well_formed = true ↔ ∃ b, st.s = some b ∧ st.l < st.m ∧ b[st.l]? = some 0 := by
  unfold qes_str.well_formed
  cases hs : st.s with
  | none => simp
  | some b => simp

theorem store_get (b b' : List Nat) (i c : Nat) (h : store (some b) i c = .ok b') :
    b'[i]? = some c := by
  simp only [store] at h
  split at h
  · rename_i hi
    cases h
    exact List.getElem?_set_self hi
  · cases h

/-- What every completed fill leaves behind: the length read, a capacity above it, and the
terminator at that offset. -/
theorem fill_inv (fuel : Nat) (junk : Nat → Nat) (st : qes_str) (src : List Nat)
    (len e : Nat) (r : Int) (st' : qes_str) (hlen : fill_len src len = .ok e)
    (he : e + 1 ≤ 2 ^ 63)
    (h : qes_str_fill_charptr fuel junk (some st) (some src) len = .ok (r, some st')) :
    st'.well_formed = true ∧ st'.l = e := by
  have hneed : (e + 1) % SIZE_MOD = e + 1 := Nat.mod_eq_of_lt (by unfold SIZE_MOD; omega)
  simp only [qes_str_fill_charptr, hlen, bind, Except.bind, hneed, pure, Except.pure] at h
  by_cases hm : st.m < e + 1
  · simp only [hm, if_true] at h
    cases hg : grow fuel st.m (e + 1) with
    | error x => rw [hg] at h; cases h
    | ok m' =>
      have hge := grow_ge (e + 1) fuel st.m m' hg
      rw [hg] at h
      simp only at h
      cases hc : memcpy (qes_realloc junk st.s (m' * 1 % SIZE_MOD)) (some src) e with
      | error x => rw [hc] at h; cases h
      | ok b =>
        rw [hc] at h
        simp only at h
        cases hs : store (some b) e 0 with
        | error x => rw [hs] at h; cases h
        | ok b' =>
          rw [hs] at h
          simp only [Except.ok.injEq, Prod.mk.injEq, Option.some.injEq] at h
          obtain ⟨_, rfl⟩ := h
          exact ⟨(well_formed_iff _).2 ⟨b', rfl, by show e < m'; omega, store_get b b' e 0 hs⟩, rfl⟩
  · simp only [hm, if_false] at h
    cases hc : memcpy st.s (some src) e with
    | error x => rw [hc] at h; cases h
    | ok b =>
      rw [hc] at h
      simp only at h
      cases hs : store (some b) e 0 with
      | error x => rw [hs] at h; cases h
      | ok b' =>
        rw [hs] at h
        simp only [Except.ok.injEq, Prod.mk.injEq, Option.some.injEq] at h
        obtain ⟨_, rfl⟩ := h
        exact ⟨(well_formed_iff _).2 ⟨b', rfl, by show e < st.m; omega, store_get b b' e 0 hs⟩, rfl⟩

/-- What every successful nullify leaves behind. -/
theorem nullify_inv (st st' : qes_str)
    (h : qes_str_nullify (some st) = .ok (0, some st')) :
    st'.well_formed = true ∧ st'.l = 0 ∧ st'.m = st.m := by
  by_cases hok : qes_str_ok (some st) = true
  · obtain ⟨hm, _⟩ := ok_fields st hok
    simp only [qes_str_nullify, hok, Bool.not_true, Bool.false_eq_true, if_false, bind,
      Except.bind, pure, Except.pure] at h
    cases hs : store st.s 0 0 with
    | error x => rw [hs] at h; cases h
    | ok b' =>
      rw [hs] at h
      simp only [Except.ok.injEq, Prod.mk.injEq, Option.some.injEq, true_and] at h
      subst h
      have hg : b'[0]? = some 0 := by
        cases hss : st.s with
        | none => rw [hss] at hs; simp [store] at hs
        | some b => rw [hss] at hs; exact store_get b b' 0 0 hs
      exact ⟨(well_formed_iff _).2 ⟨b', rfl, hm, hg⟩, rfl, rfl⟩
  · have hf : qes_str_ok (some st) = false := by simpa using hok
    simp [qes_str_nullify, hf] at h

/-- C24: the well-formedness of a buffer, "storage is allocated, `l < m`, and `s[l] = 0`",
is established by `qes_str_init` for every capacity `> 0`, is established by every
successful `qes_str_fill_charptr` whose copied length `e` has `e + 1 ≤ 2 ^ 63`, whatever the
prior state (and such a fill does succeed on the absent buffer), and is preserved by every
successful `qes_str_nullify`. -/
theorem qes_str_well_formed :
    (∀ st0 c, 0 < c →
      ∃ st, qes_str_init (some st0) c = some st ∧ st.well_formed = true) ∧
    (∀ fuel junk st src len e r st', fill_len src len = .ok e → e + 1 ≤ 2 ^ 63 →
      qes_str_fill_charptr fuel junk (some st) (some src) len = .ok (r, some st') →
      st'.well_formed = true) ∧
    (∀ fuel junk src len e, 65 ≤ fuel → fill_len src len = .ok e → e + 1 ≤ 2 ^ 63 →
      e ≤ src.length →
      ∃ st', qes_str_fill_charptr fuel junk (some qes_str.absent) (some src) len =
          .ok (1, some st') ∧ st'.well_formed = true) ∧
    (∀ st st', st.well_formed = true → qes_str_nullify (some st) = .ok (0, some st') →
      st'.well_formed = true) := by
  refine ⟨?_, ?_, ?_, ?_⟩
  · intro st0 c hc
    refine ⟨_, rfl, (well_formed_iff _).2 ⟨List.replicate (c * 1) 0, rfl, hc, ?_⟩⟩
    show (List.replicate (c * 1) 0)[0]? = some 0
    rw [List.getElem?_replicate]
    simp; omega
  · intro fuel junk st src len e r st' hlen he h
    exact (fill_inv fuel junk st src len e r st' hlen he h).1
  · intro fuel junk src len e hf hlen he hsrc
    obtain ⟨b, m, h, _⟩ :=
      fill_spec fuel junk qes_str.absent src len e hf (by decide) hlen he hsrc
    exact ⟨_, h, (fill_inv fuel junk _ src len e 1 _ hlen he h).1⟩
  · intro st st' _ h
    exact (nullify_inv st st' h).1

theorem qes_str_well_formed_witness :
    (∃ st, qes_str_init (some { s := none, l := 9, m := 0 }) 4 = some st ∧
      st.well_formed = true) ∧
    qes_str.well_formed { s := some [65, 67, 71, 84, 0, 255, 255, 255], l := 4, m := 8 } = true ∧
    (∃ st', qes_str_fill_charptr 65 (fun _ => 255) (some qes_str.absent)
        (some [65, 67, 71, 84, 0]) 4 = .ok (1, some st') ∧ st'.well_formed = true) ∧
    qes_str.well_formed { s := some [0, 67, 71, 84, 0, 255, 255, 255], l := 0, m := 8 } = true :=
  ⟨qes_str_well_formed.1 { s := none, l := 9, m := 0 } 4 (by decide),
   qes_str_well_formed.2.1 65 (fun _ => 255) { s := some [0, 0], l := 7, m := 1 }
     [65, 67, 71, 84, 0] 4 4 1 { s := some [65, 67, 71, 84, 0, 255, 255, 255], l := 4, m := 8 }
     (by decide) (by decide) (by decide),
   qes_str_well_formed.2.2.1 65 (fun _ => 255) [65, 67, 71, 84, 0] 4 4 (by decide) (by decide)
     (by decide) (by decide),
   qes_str_well_formed.2.2.2 { s := some [65, 67, 71, 84, 0, 255, 255, 255], l := 4, m := 8 }
     { s := some [0, 67, 71, 84, 0, 255, 255, 255], l := 0, m := 8 } (by decide) (by decide)⟩

/-! ### The buffer copy and the record copy -/

/-- What every completed copy that passes the guard does to the destination's length and
capacity: nothing when the destination was valid, the values of `qes_str_init` otherwise. -/
theorem copy_frame (d sr : qes_str) (r : Int) (d' : qes_str)
    (hsr : qes_str_ok (some sr) = true)
    (h : qes_str_copy (some d) (some sr) = .ok (r, some d')) :
    (qes_str_ok (some d) = true → d'.l = d.l ∧ d'.m = d.m) ∧
    (qes_str_ok (some d) = false → d'.l = 0 ∧ d'.m = sr.m) := by
  by_cases hd : qes_str_ok (some d) = true
  · refine ⟨fun _ => ?_, fun hf => by rw [hd] at hf; cases hf⟩
    simp only [qes_str_copy, hsr, hd, Bool.not_true, Option.isNone_some, Bool.or_self,
      Bool.false_eq_true, if_false, bind, Except.bind, pure, Except.pure] at h
    cases hc : memcpy d.s sr.s sr.m with
    | error x => rw [hc] at h; cases h
    | ok b =>
      rw [hc] at h
      simp only [Except.ok.injEq, Prod.mk.injEq, Option.some.injEq] at h
      obtain ⟨_, rfl⟩ := h
      exact ⟨rfl, rfl⟩
  · have hf : qes_str_ok (some d) = false := by simpa using hd
    refine ⟨fun ht => (by rw [hf] at ht; cases ht), fun _ => ?_⟩
    simp only [qes_str_copy, hsr, hf, Bool.not_true, Bool.not_false, Option.isNone_some,
      Bool.or_self, Bool.false_eq_true, if_false, if_true, qes_str_init, bind, Except.bind,
      pure, Except.pure] at h
    cases hc : memcpy (qes_calloc sr.m 1) sr.s sr.m with
    | error x => rw [hc] at h; cases h
    | ok b =>
      rw [hc] at h
      simp only [Except.ok.injEq, Prod.mk.injEq, Option.some.injEq] at h
      obtain ⟨_, rfl⟩ := h
      exact ⟨rfl, rfl⟩

/-- C25: `qes_str_copy` never writes the destination's length: for every valid `src` and
every already-valid `dest`, after a completed call `dest.l` and `dest.m` are what they were
before, and for a `dest` that was not valid `dest.l` is 0 and `dest.m` is `src.m`; the call
completes whenever the `src.m` bytes it copies lie inside both storages. So copying a `src`
holding `"TEST"` (`l = 4`) into a freshly initialised or a not-yet-valid `dest` leaves
`dest.l = 0` while the bytes of `dest` spell `"TEST"`, and `dest.s[dest.l]` is then not the
terminator. -/
theorem qes_str_copy_keeps_length :
    (∀ d sr r d', qes_str_ok (some sr) = true → qes_str_ok (some d) = true →
      qes_str_copy (some d) (some sr) = .ok (r, some d') → d'.l = d.l ∧ d'.m = d.m) ∧
    (∀ d sr r d', qes_str_ok (some sr) = true → qes_str_ok (some d) = false →
      qes_str_copy (some d) (some sr) = .ok (r, some d') → d'.l = 0 ∧ d'.m = sr.m) ∧
    (∀ d sr, qes_str_ok (some sr) = true → sr.m ≤ sr.alloc →
      (qes_str_ok (some d) = true → sr.m ≤ d.alloc) →
      ∃ d', qes_str_copy (some d) (some sr) = .ok (0, some d')) ∧
    qes_str_copy (qes_str_init (some qes_str.absent) 8)
        (some { s := some (bytes "TEST" ++ [0, 255, 255, 255]), l := 4, m := 8 }) =
      .ok (0, some { s := some (bytes "TEST" ++ [0, 255, 255, 255]), l := 0, m := 8 }) ∧
    qes_str_copy (some qes_str.absent)
        (some { s := some (bytes "TEST" ++ [0, 255, 255, 255]), l := 4, m := 8 }) =
      .ok (0, some { s := some (bytes "TEST" ++ [0, 255, 255, 255]), l := 0, m := 8 }) ∧
    (bytes "TEST" ++ [0, 255, 255, 255])[0]? ≠ some 0 := by
  refine ⟨?_, ?_, ?_, by decide, by decide, by decide⟩
  · intro d sr r d' hsr hd h
    exact (copy_frame d sr r d' hsr h).1 hd
  · intro d sr r d' hsr hd h
    exact (copy_frame d sr r d' hsr h).2 hd
  · intro d sr hsrc hswf hcap
    obtain ⟨hm, _⟩ := ok_fields sr hsrc
    obtain ⟨sb, hs, hsb⟩ := storage_of_capacity sr hswf hm
    by_cases hd : qes_str_ok (some d) = true
    · obtain ⟨_, db, hds⟩ := ok_fields d hd
      have hdb : sr.m ≤ db.length := by simpa [qes_str.alloc, hds] using hcap hd
      exact ⟨_, copy_valid_dest d sr sb db hs hm hsb hd hds hdb⟩
    · have hf : qes_str_ok (some d) = false := by simpa using hd
      exact ⟨_, copy_invalid_dest d sr sb hs hm hsb hf⟩

theorem qes_str_copy_keeps_length_witness :
    ((3 : Nat) = 3 ∧ (16 : Nat) = 16) ∧
    ((0 : Nat) = 0 ∧ (8 : Nat) = 8) ∧
    (∃ d', qes_str_copy (some { s := some (bytes "old text" ++ List.replicate 8 0), l := 3, m := 16 })
        (some { s := some (bytes "TEST" ++ [0, 255, 255, 255]), l := 4, m := 8 }) =
      .ok (0, some d')) :=
  ⟨qes_str_copy_keeps_length.1
     { s := some (bytes "old text" ++ List.replicate 8 0), l := 3, m := 16 }
     { s := some (bytes "TEST" ++ [0, 255, 255, 255]), l := 4, m := 8 } 0
     { s := some (bytes "TEST" ++ [0, 255, 255, 255] ++ List.replicate 8 0), l := 3, m := 16 }
     (by decide) (by decide) (by decide),
   qes_str_copy_keeps_length.2.1 qes_str.absent
     { s := some (bytes "TEST" ++ [0, 255, 255, 255]), l := 4, m := 8 } 0
     { s := some (bytes "TEST" ++ [0, 255, 255, 255]), l := 0, m := 8 }
     (by decide) (by decide) (by decide),
   qes_str_copy_keeps_length.2.2.1
     { s := some (bytes "old text" ++ List.replicate 8 0), l := 3, m := 16 }
     { s := some (bytes "TEST" ++ [0, 255, 255, 255]), l := 4, m := 8 }
     (by decide) (by decide) (by decide)⟩

/-- The null-terminated text read from a storage depends only on the bytes up to and
including its terminator. -/
theorem strlen_agree (a : List Nat) :
    ∀ (n : Nat) (b : List Nat), strlen a = .ok n → b.take (n + 1) = a.take (n + 1) →
      strlen b = .ok n := by
  induction a with
  | nil => intro n b h; cases h
  | cons c cs ih =>
    intro n b h hb
    cases b with
    | nil => simp at hb
    | cons x xs =>
      simp only [List.take_succ_cons, List.cons.injEq] at hb
      obtain ⟨rfl, hb⟩ := hb
      by_cases hc : x = 0
      · simp only [strlen, hc, if_true, Except.ok.injEq] at h ⊢
        exact h
      · simp only [strlen, hc, if_false] at h ⊢
        cases hs : strlen cs with
        | error e => rw [hs] at h; cases h
        | ok k =>
          rw [hs] at h
          have hk : k + 1 = n := by simpa [Except.map] using h
          subst hk
          rw [ih k xs hs hb]
          rfl

/-- A storage that agrees with another on its first `m` bytes reads back the same text, when
that text ends inside those bytes. -/
theorem same_text (sb b : List Nat) (m n : Nat) (h : b.take m = sb.take m)
    (hn : strlen sb = .ok n) (hnm : n < m) :
    strlen b = .ok n ∧ b.take n = sb.take n := by
  have h1 : b.take (n + 1) = sb.take (n + 1) := by
    have := congrArg (List.take (n + 1)) h
    simpa [List.take_take, Nat.min_eq_left (show n + 1 ≤ m by omega)] using this
  have h2 : b.take n = sb.take n := by
    have := congrArg (List.take n) h
    simpa [List.take_take, Nat.min_eq_left (show n ≤ m by omega)] using this
  exact ⟨strlen_agree sb n b hn h1, h2⟩

/-- The copy of one field into a valid field that is large enough. -/
theorem field_copy (d sr : qes_str) (hsr : qes_str_ok (some sr) = true)
    (hswf : sr.m ≤ sr.alloc) (hd : qes_str_ok (some d) = true) (hcap : sr.m ≤ d.alloc) :
    ∃ sb b, sr.s = some sb ∧
      qes_str_copy (some d) (some sr) = .ok (0, some { s := some b, l := d.l, m := d.m }) ∧
      b.take sr.m = sb.take sr.m := by
  obtain ⟨hm, _⟩ := ok_fields sr hsr
  obtain ⟨sb, hs, hsb⟩ := storage_of_capacity sr hswf hm
  obtain ⟨_, db, hds⟩ := ok_fields d hd
  have hdb : sr.m ≤ db.length := by simpa [qes_str.alloc, hds] using hcap
  refine ⟨sb, _, hs, copy_valid_dest d sr sb db hs hm hsb hd hds hdb, ?_⟩
  rw [List.take_left' (by simp [hsb])]

/-- The record copy fails with 1, leaving `dest` as it is, when `dest` is null, when `src` is
null, or when the two are the same record. -/
theorem qes_seq_copy_fail (same : Bool) (dest src : Option qes_seq)
    (h : dest = none ∨ src = none ∨ same = true) :
    qes_seq_copy same dest src = .ok (1, dest) := by
  cases dest with
  | none => rfl
  | some d =>
    cases src with
    | none => rfl
    | some sr =>
      have hs : same = true := by simpa using h
      simp [qes_seq_copy, hs]

/-- The record copy between two distinct records whose fields are all valid succeeds when
every field of `dest` has room for the capacity of the matching field of `src`: it returns
0, and every field of `dest` then agrees with the matching field of `src` on the first
`src.m` bytes, keeping its own length and capacity. -/
theorem qes_seq_copy_fits (d sr : qes_seq)
    (hn : qes_str_ok (some sr.name) = true ∧ sr.name.m ≤ sr.name.alloc ∧
      qes_str_ok (some d.name) = true ∧ sr.name.m ≤ d.name.alloc)
    (hc : qes_str_ok (some sr.comment) = true ∧ sr.comment.m ≤ sr.comment.alloc ∧
      qes_str_ok (some d.comment) = true ∧ sr.comment.m ≤ d.comment.alloc)
    (hs : qes_str_ok (some sr.seq) = true ∧ sr.seq.m ≤ sr.seq.alloc ∧
      qes_str_ok (some d.seq) = true ∧ sr.seq.m ≤ d.seq.alloc)
    (hq : qes_str_ok (some sr.qual) = true ∧ sr.qual.m ≤ sr.qual.alloc ∧
      qes_str_ok (some d.qual) = true ∧ sr.qual.m ≤ d.qual.alloc) :
    ∃ sn bn sc bc ss bs sq bq,
      sr.name.s = some sn ∧ sr.comment.s = some sc ∧ sr.seq.s = some ss ∧
      sr.qual.s = some sq ∧
      qes_seq_copy false (some d) (some sr) =
        .ok (0, some { name := { s := some bn, l := d.name.l, m := d.name.m },
                       comment := { s := some bc, l := d.comment.l, m := d.comment.m },
                       seq := { s := some bs, l := d.seq.l, m := d.seq.m },
                       qual := { s := some bq, l := d.qual.l, m := d.qual.m } }) ∧
      bn.take sr.name.m = sn.take sr.name.m ∧ bc.take sr.comment.m = sc.take sr.comment.m ∧
      bs.take sr.seq.m = ss.take sr.seq.m ∧ bq.take sr.qual.m = sq.take sr.qual.m := by
  obtain ⟨sn, bn, n1, n2, n3⟩ := field_copy d.name sr.name hn.1 hn.2.1 hn.2.2.1 hn.2.2.2
  obtain ⟨sc, bc, c1, c2, c3⟩ :=
    field_copy d.comment sr.comment hc.1 hc.2.1 hc.2.2.1 hc.2.2.2
  obtain ⟨ss, bs, s1, s2, s3⟩ := field_copy d.seq sr.seq hs.1 hs.2.1 hs.2.2.1 hs.2.2.2
  obtain ⟨sq, bq, q1, q2, q3⟩ := field_copy d.qual sr.qual hq.1 hq.2.1 hq.2.2.1 hq.2.2.2
  refine ⟨sn, bn, sc, bc, ss, bs, sq, bq, n1, c1, s1, q1, ?_, n3, c3, s3, q3⟩
  simp [qes_seq_copy, n2, c2, s2, q2, bind, Except.bind, pure, Except.pure]

/-- The case of the test: a record filled with ("TEST", "Comment 1", "AGCT", "IIII") copied
into a fresh record of the same capacity gives 0 and fields that read back the same texts
(with the lengths of the fresh record, 0). -/
theorem qes_seq_copy_test_case :
    qes_seq_copy false (qes_seq_create 16)
      (some { name := { s := some (bytes "TEST" ++ List.replicate 12 0), l := 4, m := 16 },
              comment := { s := some (bytes "Comment 1" ++ List.replicate 7 0), l := 9, m := 16 },
              seq := { s := some (bytes "AGCT" ++ List.replicate 12 0), l := 4, m := 16 },
              qual := { s := some (bytes "IIII" ++ List.replicate 12 0), l := 4, m := 16 } }) =
    .ok (0, some
      { name := { s := some (bytes "TEST" ++ List.replicate 12 0), l := 0, m := 16 },
        comment := { s := some (bytes "Comment 1" ++ List.replicate 7 0), l := 0, m := 16 },
        seq := { s := some (bytes "AGCT" ++ List.replicate 12 0), l := 0, m := 16 },
        qual := { s := some (bytes "IIII" ++ List.replicate 12 0), l := 0, m := 16 } }) := by
  decide

/-- C21: a record copy that the claim promises and the code does not deliver. With two
distinct records fresh from `qes_seq_create`, all four fields of both valid, filling the name
of `src` with a text that outgrows the initial capacity (here `"HWI_TEST"` on capacity 4,
which grows the name to capacity 16) makes `qes_seq_copy(dest, src)` copy 16 bytes into the
4 bytes of `dest`'s name: a write outside the storage, not the return value 0 with the text
copied. -/
theorem qes_seq_copy_overflow :
    qes_seq_fill_name 65 (fun _ => 255) (qes_seq_create 4) (some (bytes "HWI_TEST" ++ [0])) 8 =
      .ok (0, some
        { name := { s := some (bytes "HWI_TEST" ++ [0, 255, 255, 255, 255, 255, 255, 255]),
                    l := 8, m := 16 },
          comment := { s := some [0, 0, 0, 0], l := 0, m := 4 },
          seq := { s := some [0, 0, 0, 0], l := 0, m := 4 },
          qual := { s := some [0, 0, 0, 0], l := 0, m := 4 } }) ∧
    qes_seq_ok (qes_seq_create 4) = true ∧
    qes_seq_ok (some
        { name := { s := some (bytes "HWI_TEST" ++ [0, 255, 255, 255, 255, 255, 255, 255]),
                    l := 8, m := 16 },
          comment := { s := some [0, 0, 0, 0], l := 0, m := 4 },
          seq := { s := some [0, 0, 0, 0], l := 0, m := 4 },
          qual := { s := some [0, 0, 0, 0], l := 0, m := 4 } }) = true ∧
    qes_seq_copy false (qes_seq_create 4)
      (some
        { name := { s := some (bytes "HWI_TEST" ++ [0, 255, 255, 255, 255, 255, 255, 255]),
                    l := 8, m := 16 },
          comment := { s := some [0, 0, 0, 0], l := 0, m := 4 },
          seq := { s := some [0, 0, 0, 0], l := 0, m := 4 },
          qual := { s := some [0, 0, 0, 0], l := 0, m := 4 } }) = .error .fault := by
  decide

end Qes
